import Mathlib

/-!
Shallow embedding of `sy-harabi/screeps-traffic-manager`
(src/js/screeps-traffic-manager-monkey-patch.js and its TypeScript port
src/ts/screeps-traffic-manager.ts).

Modelling conventions:
* Grid coordinates are `Int` (JS numbers; `pos + delta` may leave the grid).
* `packCoordinates` / `unpackCoordinates` follow the JS arithmetic exactly:
  `50 * y + x`, and unpacking uses JS `%` (truncating remainder, `Int.tmod`)
  and `Math.floor (p / 50)` (flooring division, `Int.fdiv`).
* A creep's per-step scratch fields (`_intendedPackedCoord`, `_workingPos`,
  `_workingRange`) are fields of the `Creep` record; the memoised shuffled
  direction order produced by `Object.values(DIRECTION_DELTA).sort(() =>
  Math.random() - 0.5)` on the first `getPossibleMoves` call is modelled as
  the input field `deltaOrder` (the cache `_possibleMoves` makes the order a
  per-run constant, so a pure function of the creep is faithful).
* JS truthiness of `getIntendedPackedCoord` (`if (!intendedPackedCoord)`)
  is modelled by `intendedTruthy`: the packed coordinate `0` is falsy.
* The movement `Map` is an association list with `Map.get`/`Map.set`/
  `Map.delete` semantics (`mmGet`/`mmSet`/`mmDel`).
* The recursion of `depthFirstSearch` is modelled with explicit fuel;
  `none` marks fuel exhaustion, which is proved unreachable for the fuel
  `run` supplies.  A returned score of `-Infinity` is modelled as the
  score value `none`, a legitimate integer score as `some s`.
-/

/-- A grid coordinate `{x, y}`. -/
structure Coord where
  x : Int
  y : Int
deriving DecidableEq, Repr, Inhabited

/-- `TERRAIN_MASK_WALL` of the game API. -/
def TERRAIN_MASK_WALL : Int := 1

/-- The body part constant `MOVE`. -/
def MOVE : String := "move"

/-- The eight entries of `DIRECTION_DELTA`, in declaration order
(TOP, TOP_RIGHT, RIGHT, BOTTOM_RIGHT, BOTTOM, BOTTOM_LEFT, LEFT, TOP_LEFT). -/
def directionDeltas : List Coord :=
  [⟨0, -1⟩, ⟨1, -1⟩, ⟨1, 0⟩, ⟨1, 1⟩, ⟨0, 1⟩, ⟨-1, 1⟩, ⟨-1, 0⟩, ⟨-1, -1⟩]

/-- `packCoordinates`: `50 * coord.y + coord.x`. -/
def packCoordinates (coord : Coord) : Int :=
  50 * coord.y + coord.x

/-- `unpackCoordinates`: `x = packedCoord % 50` (JS remainder = `Int.tmod`),
`y = Math.floor (packedCoord / 50)` (= `Int.fdiv`). -/
def unpackCoordinates (packedCoord : Int) : Coord :=
  ⟨packedCoord.tmod 50, packedCoord.fdiv 50⟩

/-- A creep (or power creep) together with its per-step scratch data. -/
structure Creep where
  name : Nat
  pos : Coord
  my : Bool
  isPowerCreep : Bool
  fatigue : Nat
  body : List String
  intended : Option Int
  workingPos : Option Coord
  workingRange : Int
  deltaOrder : List Coord
deriving DecidableEq, Repr, Inhabited

/-- JS truthiness of `_intendedPackedCoord`: the packed value `0` is falsy,
so `if (!intendedPackedCoord)` treats it like an absent intent. -/
def intendedTruthy (c : Creep) : Option Int :=
  match c.intended with
  | some p => if p == 0 then none else some p
  | none => none

/-- The inputs of one `run`: the room's creep roster (`room.find(FIND_MY_CREEPS)
++ room.find(FIND_MY_POWER_CREEPS)`), the terrain, the optional cost matrix
and the movement cost threshold. -/
structure Env where
  roster : List Creep
  terrain : Int → Int → Int
  costs : Option (Int → Int → Int)
  movementCostThreshold : Int

/-- The default value of `movementCostThreshold` in `run`. -/
def movementCostThresholdDefault : Int := 255

/-- Creep of the roster at an index (indices play the role of JS object
identity; the movement map stores them). -/
def creepAt (env : Env) (i : Nat) : Creep :=
  env.roster.getD i default

/-- `canMove`: power creeps always can; a creep with positive fatigue cannot;
otherwise it can iff some body part is `MOVE`.  (The `_canMove` cache is
semantically transparent.) -/
def canMove (c : Creep) : Bool :=
  if c.isPowerCreep then true
  else if c.fatigue > 0 then false
  else c.body.any (fun part => part == MOVE)

/-- `isValidMove`: wall terrain, the outermost ring (`x`/`y` equal to 0 or 49)
and — if a cost matrix is supplied — cost `≥ movementCostThreshold` are
rejected. -/
def isValidMove (coord : Coord) (terrain : Int → Int → Int)
    (costs : Option (Int → Int → Int)) (movementCostThreshold : Int) : Bool :=
  if terrain coord.x coord.y == TERRAIN_MASK_WALL then false
  else if coord.x == 0 || coord.x == 49 || coord.y == 0 || coord.y == 49 then false
  else
    match costs with
    | some cm => !(cm coord.x coord.y ≥ movementCostThreshold)
    | none => true

/-- `RoomPosition.getRangeTo`: Chebyshev distance. -/
def rangeTo (a : Coord) (x y : Int) : Int :=
  max (a.x - x).natAbs (a.y - y).natAbs

/-- `getPossibleMoves` of the JS original: empty when the creep cannot move;
the intended cell alone when a (truthy) intent is registered; otherwise the
valid neighbours in the creep's shuffled order, with the ones outside the
working area moved to the end. -/
def getPossibleMoves (env : Env) (c : Creep) : List Coord :=
  if !canMove c then []
  else
    match intendedTruthy c with
    | some p => [unpackCoordinates p]
    | none =>
      let valid := (c.deltaOrder.map (fun d => Coord.mk (c.pos.x + d.x) (c.pos.y + d.y))).filter
        (fun coord => isValidMove coord env.terrain env.costs env.movementCostThreshold)
      match c.workingPos with
      | none => valid
      | some wp =>
          valid.filter (fun coord => !(rangeTo wp coord.x coord.y > c.workingRange)) ++
          valid.filter (fun coord => rangeTo wp coord.x coord.y > c.workingRange)

/-- `getPossibleMoves` of the TypeScript port (src/ts): identical except that
the working-area fields are never consulted. -/
def getPossibleMovesTs (env : Env) (c : Creep) : List Coord :=
  if !canMove c then []
  else
    match intendedTruthy c with
    | some p => [unpackCoordinates p]
    | none =>
      (c.deltaOrder.map (fun d => Coord.mk (c.pos.x + d.x) (c.pos.y + d.y))).filter
        (fun coord => isValidMove coord env.terrain env.costs env.movementCostThreshold)

/-- The mutable state of one `run`: the movement map (packed coordinate ↦
creep index) and every creep's `_matchedPackedCoord` (indexed like the
roster). -/
structure St where
  mm : List (Int × Nat)
  matched : List (Option Int)
deriving DecidableEq, Repr

/-- `movementMap.get`. -/
def mmGet (mm : List (Int × Nat)) (p : Int) : Option Nat :=
  (mm.find? (fun e => e.1 == p)).map (fun e => e.2)

/-- `movementMap.set` (replacing any entry with the same key). -/
def mmSet (mm : List (Int × Nat)) (p : Int) (i : Nat) : List (Int × Nat) :=
  (p, i) :: mm.filter (fun e => !(e.1 == p))

/-- `movementMap.delete`. -/
def mmDel (mm : List (Int × Nat)) (p : Int) : List (Int × Nat) :=
  mm.filter (fun e => !(e.1 == p))

/-- `assignCreepToCoordinate`: set `_matchedPackedCoord` and the map entry. -/
def assignCreepToCoordinate (i : Nat) (coord : Coord) (st : St) : St :=
  let packedCoord := packCoordinates coord
  ⟨mmSet st.mm packedCoord i, st.matched.set i (some packedCoord)⟩

/-- Read a creep's `_matchedPackedCoord`. -/
def matchedOf (st : St) (i : Nat) : Option Int :=
  st.matched.getD i none

/-- The outcome of one `depthFirstSearch` call: `none` on fuel exhaustion of
the embedded recursion, otherwise `some (res, st, visited)` where `res = none`
models a returned `-Infinity` and `res = some s` a numeric score. -/
abbrev DfsResult := Option (Option Int × St × List Nat)

/-- The candidate loop of `depthFirstSearch` (the `for` over
`[...emptyTiles, ...occupiedTiles]`); `score` mutations persist across
iterations exactly as in the source.  `rec` is the recursive call
`depthFirstSearch(occupyingCreep, score, ...)` (instantiated with one less
unit of fuel by `dfs`, keeping the recursion structural). -/
def dfsLoop (env : Env) (rec : Nat → Int → St → List Nat → DfsResult) (i : Nat) :
    List Coord → Int → St → List Nat → DfsResult
  | [], _, st, visited => some (none, st, visited)
  | coord :: rest, score, st, visited =>
    let c := creepAt env i
    let packedCoord := packCoordinates coord
    let score := if c.intended == some packedCoord then score + 1 else score
    match mmGet st.mm packedCoord with
    | none =>
      if score > 0 then some (some score, assignCreepToCoordinate i coord st, visited)
      else some (some score, st, visited)
    | some j =>
      let oc := creepAt env j
      if visited.contains oc.name then
        dfsLoop env rec i rest score st visited
      else
        let score := if oc.intended == some packedCoord then score - 1 else score
        match rec j score st visited with
        | none => none
        | some (res, st', visited') =>
          match res with
          | some r =>
            if r > 0 then some (some r, assignCreepToCoordinate i coord st', visited')
            else dfsLoop env rec i rest score st' visited'
          | none => dfsLoop env rec i rest score st' visited'

/-- `depthFirstSearch`. -/
def dfs (env : Env) : Nat → Nat → Int → St → List Nat → DfsResult
  | 0, _, _, _, _ => none
  | fuel + 1, i, score, st, visited =>
    let c := creepAt env i
    let visited := c.name :: visited
    if !c.my then some (none, st, visited)
    else
      let moves := getPossibleMoves env c
      let emptyTiles := moves.filter (fun coord => (mmGet st.mm (packCoordinates coord)).isNone)
      let occupiedTiles := moves.filter (fun coord => (mmGet st.mm (packCoordinates coord)).isSome)
      dfsLoop env (dfs env fuel) i (emptyTiles ++ occupiedTiles) score st visited

/-- One iteration of the `for (const creep of creepsInRoom)` loop of `run`. -/
def runStep (env : Env) (i : Nat) (st : St) : Option St :=
  let c := creepAt env i
  match intendedTruthy c with
  | none => some st
  | some intendedPackedCoord =>
    if matchedOf st i == some intendedPackedCoord then some st
    else
      let st1 : St :=
        ⟨match matchedOf st i with
          | some m => mmDel st.mm m
          | none => st.mm,
         st.matched.set i none⟩
      match dfs env (env.roster.length + 1) i 0 st1 [] with
      | none => none
      | some (some r, st2, _) =>
          if r > 0 then some st2 else some (assignCreepToCoordinate i c.pos st2)
      | some (none, st2, _) => some (assignCreepToCoordinate i c.pos st2)

/-- The main loop of `run` over all roster indices. -/
def runLoop (env : Env) : List Nat → St → Option St
  | [], st => some st
  | i :: rest, st =>
    match runStep env i st with
    | none => none
    | some st' => runLoop env rest st'

/-- The initial self-assignment
`creepsInRoom.forEach(creep => assignCreepToCoordinate(creep, creep.pos, movementMap))`. -/
def initState (env : Env) : St :=
  (List.range env.roster.length).foldl
    (fun st i => assignCreepToCoordinate i (creepAt env i).pos st)
    ⟨[], List.replicate env.roster.length none⟩

/-- `run` (fuel exhaustion of the embedded recursion yields `none`; it is
proved unreachable for this fuel). -/
def run (env : Env) : Option St :=
  runLoop env (List.range env.roster.length) (initState env)

/-- `resolveMovement` issues a move command iff the matched position differs
from the creep's position (the `!` assertion on the matched coordinate is
modelled by defaulting to `0`). -/
def resolveMovement (env : Env) (st : St) (i : Nat) : Bool :=
  let matchedPos := unpackCoordinates ((matchedOf st i).getD 0)
  !((creepAt env i).pos == matchedPos)

/-! ### Basic lemmas about the movement map and matched-coordinate table -/

theorem find?_filter_ne (mm : List (Int × Nat)) (p q : Int) (h : q ≠ p) :
    (mm.filter (fun e => !(e.1 == p))).find? (fun e => e.1 == q) =
      mm.find? (fun e => e.1 == q) := by
  induction mm with
  | nil => rfl
  | cons e rest ih =>
    by_cases hp : e.1 = p
    · rw [List.filter_cons_of_neg (by simp [hp])]
      rw [List.find?_cons_of_neg _ (by simp [hp]; omega)]
      exact ih
    · rw [List.filter_cons_of_pos (by simp [hp])]
      by_cases hq : e.1 = q
      · rw [List.find?_cons_of_pos rest (by simp [hq]),
          List.find?_cons_of_pos (List.filter (fun e => !(e.1 == p)) rest) (by simp [hq])]
      · rw [List.find?_cons_of_neg _ (by simp [hq]),
          List.find?_cons_of_neg _ (by simp [hq])]
        exact ih

theorem mmGet_set (mm : List (Int × Nat)) (p : Int) (i : Nat) (q : Int) :
    mmGet (mmSet mm p i) q = if q = p then some i else mmGet mm q := by
  by_cases h : q = p
  · subst h
    simp [mmGet, mmSet, List.find?]
  · have : (p == q) = false := by simp; omega
    simp [mmGet, mmSet, List.find?, this, h, find?_filter_ne mm p q h]

theorem mmGet_del (mm : List (Int × Nat)) (p : Int) (q : Int) :
    mmGet (mmDel mm p) q = if q = p then none else mmGet mm q := by
  by_cases h : q = p
  · subst h
    simp only [mmGet, mmDel, if_pos rfl]
    induction mm with
    | nil => rfl
    | cons e rest ih =>
      by_cases hp : e.1 = q
      · have : (e.1 == q) = true := by simp [hp]
        simp [List.filter, this, ih]
      · have : (e.1 == q) = false := by simp [hp]
        simp [List.filter, this, List.find?, ih]
  · simp [mmGet, mmDel, h, find?_filter_ne mm p q h]

theorem getD_set_self (l : List (Option Int)) (i : Nat) (v : Option Int)
    (h : i < l.length) : (l.set i v).getD i none = v := by
  induction l generalizing i with
  | nil => simp at h
  | cons a rest ih =>
    cases i with
    | zero => rfl
    | succ i => simpa [List.set, List.getD] using ih i (by simpa using h)

theorem getD_set_ne (l : List (Option Int)) (i j : Nat) (v : Option Int)
    (h : j ≠ i) : (l.set i v).getD j none = l.getD j none := by
  induction l generalizing i j with
  | nil => simp [List.set]
  | cons a rest ih =>
    cases i with
    | zero => cases j with
      | zero => omega
      | succ j => rfl
    | succ i => cases j with
      | zero => rfl
      | succ j => simpa [List.set, List.getD] using ih i j (by omega)

theorem matchedOf_set_self (st : St) (mm : List (Int × Nat)) (i : Nat) (v : Option Int)
    (h : i < st.matched.length) :
    matchedOf ⟨mm, st.matched.set i v⟩ i = v := by
  show (st.matched.set i v).getD i none = v
  rw [List.getD_eq_getElem?_getD, List.getElem?_set_self h]
  rfl

theorem matchedOf_set_ne (st : St) (mm : List (Int × Nat)) (i j : Nat) (v : Option Int)
    (h : j ≠ i) : matchedOf ⟨mm, st.matched.set i v⟩ j = matchedOf st j := by
  show (st.matched.set i v).getD j none = st.matched.getD j none
  rw [List.getD_eq_getElem?_getD, List.getElem?_set_ne (Ne.symm h), List.getD_eq_getElem?_getD]

theorem matchedOf_assign_self (i : Nat) (coord : Coord) (st : St)
    (h : i < st.matched.length) :
    matchedOf (assignCreepToCoordinate i coord st) i = some (packCoordinates coord) := by
  show (st.matched.set i (some (packCoordinates coord))).getD i none = some (packCoordinates coord)
  rw [List.getD_eq_getElem?_getD, List.getElem?_set_self h]
  rfl

theorem matchedOf_assign_ne (i : Nat) (coord : Coord) (st : St) (j : Nat) (h : j ≠ i) :
    matchedOf (assignCreepToCoordinate i coord st) j = matchedOf st j := by
  show (st.matched.set i (some (packCoordinates coord))).getD j none = st.matched.getD j none
  rw [List.getD_eq_getElem?_getD, List.getElem?_set_ne (Ne.symm h), List.getD_eq_getElem?_getD]

theorem mm_assign (i : Nat) (coord : Coord) (st : St) (q : Int) :
    mmGet (assignCreepToCoordinate i coord st).mm q =
      if q = packCoordinates coord then some i else mmGet st.mm q := by
  simp [assignCreepToCoordinate, mmGet_set]

theorem matched_length_assign (i : Nat) (coord : Coord) (st : St) :
    (assignCreepToCoordinate i coord st).matched.length = st.matched.length := by
  simp [assignCreepToCoordinate]

/-! ### Packing round-trip -/

theorem unpack_pack (x y : Int) (hx0 : 0 ≤ x) (hx1 : x < 50) (hy0 : 0 ≤ y) :
    unpackCoordinates (packCoordinates ⟨x, y⟩) = ⟨x, y⟩ := by
  have hp : (0 : Int) ≤ 50 * y + x := by nlinarith
  simp only [packCoordinates, unpackCoordinates]
  have h1 : (50 * y + x).tmod 50 = x := by
    rw [Int.tmod_eq_emod hp (by norm_num)]
    omega
  have h2 : (50 * y + x).fdiv 50 = y := by
    rw [Int.fdiv_eq_ediv _ (by norm_num : (0:Int) ≤ 50)]
    omega
  rw [h1, h2]

theorem pack_unpack (p : Int) (hp : 0 ≤ p) :
    packCoordinates (unpackCoordinates p) = p := by
  simp only [packCoordinates, unpackCoordinates]
  rw [Int.tmod_eq_emod hp (by norm_num), Int.fdiv_eq_ediv _ (by norm_num : (0:Int) ≤ 50)]
  omega

theorem pack_inj (a b : Coord) (hax0 : 0 ≤ a.x) (hax1 : a.x < 50)
    (hbx0 : 0 ≤ b.x) (hbx1 : b.x < 50)
    (h : packCoordinates a = packCoordinates b) : a = b := by
  cases a; cases b
  simp only [packCoordinates] at h
  simp_all
  omega

/-! ### Candidate generator lemmas -/

theorem isValidMove_props (coord : Coord) (terrain : Int → Int → Int)
    (costs : Option (Int → Int → Int)) (thr : Int)
    (h : isValidMove coord terrain costs thr = true) :
    coord.x ≠ 0 ∧ coord.x ≠ 49 ∧ coord.y ≠ 0 ∧ coord.y ≠ 49 ∧
    (∀ cm, costs = some cm → cm coord.x coord.y < thr) := by
  unfold isValidMove at h
  split at h
  · simp at h
  · split at h
    · simp at h
    · next hborder =>
      simp only [Bool.or_eq_true, beq_iff_eq, not_or] at hborder
      obtain ⟨⟨⟨hb1, hb2⟩, hb3⟩, hb4⟩ := hborder
      refine ⟨hb1, hb2, hb3, hb4, ?_⟩
      intro cm hcm
      subst hcm
      simp only [ge_iff_le, Bool.not_eq_true'] at h
      simpa using h

theorem isValidMove_of_props (coord : Coord) (terrain : Int → Int → Int)
    (costs : Option (Int → Int → Int)) (thr : Int)
    (hwall : terrain coord.x coord.y ≠ TERRAIN_MASK_WALL)
    (hb : coord.x ≠ 0 ∧ coord.x ≠ 49 ∧ coord.y ≠ 0 ∧ coord.y ≠ 49)
    (hcost : ∀ cm, costs = some cm → cm coord.x coord.y < thr) :
    isValidMove coord terrain costs thr = true := by
  unfold isValidMove
  rw [if_neg (by simpa using hwall)]
  rw [if_neg (by simp [hb.1, hb.2.1, hb.2.2.1, hb.2.2.2])]
  match costs, hcost with
  | none, _ => rfl
  | some cm, hc => simpa using Int.not_le.mpr (hc cm rfl)

/-- Membership in the JS candidate list of an intent-free creep is membership
in the valid-neighbour list (the working area only reorders). -/
theorem mem_getPossibleMoves (env : Env) (c : Creep) (h : intendedTruthy c = none)
    (coord : Coord) :
    coord ∈ getPossibleMoves env c ↔
      canMove c = true ∧
      coord ∈ (c.deltaOrder.map fun d => Coord.mk (c.pos.x + d.x) (c.pos.y + d.y)).filter
        (fun coord => isValidMove coord env.terrain env.costs env.movementCostThreshold) := by
  unfold getPossibleMoves
  cases hm : canMove c with
  | false => simp
  | true =>
    rw [h]
    cases hw : c.workingPos with
    | none => simp
    | some wp =>
      simp only [Bool.not_true, Bool.false_eq_true, if_false, List.mem_append,
        List.mem_filter, true_and]
      constructor
      · rintro (⟨h1, _⟩ | ⟨h1, _⟩) <;> exact h1
      · intro h1
        by_cases hr : rangeTo wp coord.x coord.y > c.workingRange
        · refine Or.inr ⟨h1, ?_⟩
          simpa using hr
        · refine Or.inl ⟨h1, ?_⟩
          simpa using hr

theorem mem_getPossibleMovesTs (env : Env) (c : Creep) (h : intendedTruthy c = none)
    (coord : Coord) :
    coord ∈ getPossibleMovesTs env c ↔
      canMove c = true ∧
      coord ∈ (c.deltaOrder.map fun d => Coord.mk (c.pos.x + d.x) (c.pos.y + d.y)).filter
        (fun coord => isValidMove coord env.terrain env.costs env.movementCostThreshold) := by
  unfold getPossibleMovesTs
  cases hm : canMove c with
  | false => simp
  | true => rw [h]; simp

/-! ### C3: packing round-trip -/

/-- C3: For every coordinate pair with `0 ≤ x < 50` and `0 ≤ y < 50`,
unpacking the packed key `50*y + x` returns exactly `(x, y)`:
`unpackCoordinates` is a left inverse of `packCoordinates` on the grid. -/
theorem C3_packing_round_trip (x y : Int) (hx0 : 0 ≤ x) (hx1 : x < 50)
    (hy0 : 0 ≤ y) (hy1 : y < 50) :
    unpackCoordinates (packCoordinates ⟨x, y⟩) = ⟨x, y⟩ :=
  unpack_pack x y hx0 hx1 hy0

/-- Witness for C3 at the concrete coordinate `(7, 3)`. -/
theorem C3_packing_round_trip_witness :
    (0:Int) ≤ 7 ∧ (7:Int) < 50 ∧ (0:Int) ≤ 3 ∧ (3:Int) < 50 ∧
      unpackCoordinates (packCoordinates ⟨7, 3⟩) = ⟨7, 3⟩ :=
  ⟨by norm_num, by norm_num, by norm_num, by norm_num,
    C3_packing_round_trip 7 3 (by norm_num) (by norm_num) (by norm_num) (by norm_num)⟩

/-! ### C5: boundary exclusion -/

/-- A movable creep whose registered intent is the border cell `(0, 5)`. -/
def creepC5 : Creep :=
  ⟨0, ⟨1, 5⟩, true, false, 0, [MOVE], some (packCoordinates ⟨0, 5⟩), none, 0, directionDeltas⟩

/-- A one-creep room with plain terrain and no cost matrix. -/
def envC5 : Env := ⟨[creepC5], fun _ _ => 0, none, 255⟩

/-- C5 counterexample: the candidate list of an agent whose registered intent
is the border cell `(0, 5)` is exactly `[(0, 5)]`, a cell with `x = 0` — the
intent branch of the candidate generator performs no boundary check, so the
claim is false as stated over all intents. -/
theorem C5_boundary_exclusion_counterexample :
    getPossibleMoves envC5 creepC5 = [⟨0, 5⟩] ∧
      getPossibleMovesTs envC5 creepC5 = [⟨0, 5⟩] ∧ (⟨0, 5⟩ : Coord).x = 0 := by
  refine ⟨by decide, by decide, rfl⟩

/-- C5 (amended): for every agent without a (truthy) registered intent, the
candidate list produced by either candidate generator never contains a cell
whose x or y coordinate equals 0 or 49, for all terrain, cost matrices and
working areas. -/
theorem C5_boundary_exclusion (env : Env) (c : Creep)
    (h : intendedTruthy c = none) (coord : Coord)
    (hmem : coord ∈ getPossibleMoves env c ∨ coord ∈ getPossibleMovesTs env c) :
    coord.x ≠ 0 ∧ coord.x ≠ 49 ∧ coord.y ≠ 0 ∧ coord.y ≠ 49 := by
  have hval : isValidMove coord env.terrain env.costs env.movementCostThreshold = true := by
    rcases hmem with hmem | hmem
    · exact (List.mem_filter.mp ((mem_getPossibleMoves env c h coord).mp hmem).2).2
    · exact (List.mem_filter.mp ((mem_getPossibleMovesTs env c h coord).mp hmem).2).2
  have := isValidMove_props coord env.terrain env.costs env.movementCostThreshold hval
  exact ⟨this.1, this.2.1, this.2.2.1, this.2.2.2.1⟩

/-- A movable intent-free creep at `(5, 5)`. -/
def creepC5w : Creep := ⟨0, ⟨5, 5⟩, true, false, 0, [MOVE], none, none, 0, directionDeltas⟩

/-- A one-creep room around `creepC5w`. -/
def envC5w : Env := ⟨[creepC5w], fun _ _ => 0, none, 255⟩

/-- Witness for C5 (amended): a movable intent-free creep at `(5, 5)` on plain
terrain has the interior cell `(6, 5)` as a candidate, and the theorem applies. -/
theorem C5_boundary_exclusion_witness :
    intendedTruthy creepC5w = none ∧
    ((⟨6, 5⟩ : Coord) ∈ getPossibleMoves envC5w creepC5w ∨
      (⟨6, 5⟩ : Coord) ∈ getPossibleMovesTs envC5w creepC5w) ∧
    ((⟨6, 5⟩ : Coord).x ≠ 0 ∧ (⟨6, 5⟩ : Coord).x ≠ 49 ∧
      (⟨6, 5⟩ : Coord).y ≠ 0 ∧ (⟨6, 5⟩ : Coord).y ≠ 49) :=
  ⟨by decide, Or.inl (by decide),
    C5_boundary_exclusion envC5w creepC5w (by decide) ⟨6, 5⟩ (Or.inl (by decide))⟩

/-! ### C6: cost-threshold boundary -/

/-- C6: the default threshold is 255; a neighbour cell whose cost equals the
threshold is excluded from the candidate list of an intent-free agent, and an
otherwise-valid neighbour cell whose cost equals threshold minus one is
included (in both the JS and the TS candidate generator). -/
theorem C6_cost_threshold (env : Env) (c : Creep) (cm : Int → Int → Int)
    (hintent : intendedTruthy c = none) (hcosts : env.costs = some cm) :
    movementCostThresholdDefault = 255 ∧
    (∀ coord : Coord, cm coord.x coord.y = env.movementCostThreshold →
      coord ∉ getPossibleMoves env c ∧ coord ∉ getPossibleMovesTs env c) ∧
    (∀ d ∈ c.deltaOrder, ∀ coord : Coord,
      coord = ⟨c.pos.x + d.x, c.pos.y + d.y⟩ →
      canMove c = true →
      env.terrain coord.x coord.y ≠ TERRAIN_MASK_WALL →
      coord.x ≠ 0 → coord.x ≠ 49 → coord.y ≠ 0 → coord.y ≠ 49 →
      cm coord.x coord.y = env.movementCostThreshold - 1 →
      coord ∈ getPossibleMoves env c ∧ coord ∈ getPossibleMovesTs env c) := by
  refine ⟨rfl, ?_, ?_⟩
  · intro coord hcost
    constructor
    · intro hmem
      have hval := (List.mem_filter.mp ((mem_getPossibleMoves env c hintent coord).mp hmem).2).2
      have := (isValidMove_props coord env.terrain env.costs env.movementCostThreshold hval).2.2.2.2 cm hcosts
      omega
    · intro hmem
      have hval := (List.mem_filter.mp ((mem_getPossibleMovesTs env c hintent coord).mp hmem).2).2
      have := (isValidMove_props coord env.terrain env.costs env.movementCostThreshold hval).2.2.2.2 cm hcosts
      omega
  · intro d hd coord hcoord hcan hwall hx0 hx1 hy0 hy1 hcost
    have hval : isValidMove coord env.terrain env.costs env.movementCostThreshold = true := by
      refine isValidMove_of_props coord _ _ _ hwall ⟨hx0, hx1, hy0, hy1⟩ ?_
      intro cm' hcm'
      rw [hcosts] at hcm'
      cases hcm'
      omega
    have hmap : coord ∈ c.deltaOrder.map fun d => Coord.mk (c.pos.x + d.x) (c.pos.y + d.y) :=
      List.mem_map.mpr ⟨d, hd, hcoord.symm⟩
    have hfil : coord ∈ (c.deltaOrder.map fun d => Coord.mk (c.pos.x + d.x) (c.pos.y + d.y)).filter
        (fun coord => isValidMove coord env.terrain env.costs env.movementCostThreshold) :=
      List.mem_filter.mpr ⟨hmap, hval⟩
    exact ⟨(mem_getPossibleMoves env c hintent coord).mpr ⟨hcan, hfil⟩,
      (mem_getPossibleMovesTs env c hintent coord).mpr ⟨hcan, hfil⟩⟩

/-- The cost matrix of the C6 witness: cost 255 at `(11, 10)`, 254 at `(9, 10)`. -/
def cmC6 : Int → Int → Int :=
  fun x y => if x = 11 ∧ y = 10 then 255 else if x = 9 ∧ y = 10 then 254 else 0

/-- A movable intent-free creep at `(10, 10)`. -/
def creepC6 : Creep := ⟨0, ⟨10, 10⟩, true, false, 0, [MOVE], none, none, 0, directionDeltas⟩

/-- A one-creep room with the C6 cost matrix and the default threshold. -/
def envC6 : Env := ⟨[creepC6], fun _ _ => 0, some cmC6, 255⟩

/-- Witness for C6: with threshold 255, the neighbour `(11, 10)` of cost 255 is
excluded and the neighbour `(9, 10)` of cost 254 is included. -/
theorem C6_cost_threshold_witness :
    intendedTruthy creepC6 = none ∧ envC6.costs = some cmC6 ∧
    ((⟨11, 10⟩ : Coord) ∉ getPossibleMoves envC6 creepC6 ∧
      (⟨11, 10⟩ : Coord) ∉ getPossibleMovesTs envC6 creepC6) ∧
    ((⟨9, 10⟩ : Coord) ∈ getPossibleMoves envC6 creepC6 ∧
      (⟨9, 10⟩ : Coord) ∈ getPossibleMovesTs envC6 creepC6) :=
  ⟨by decide, rfl,
    (C6_cost_threshold envC6 creepC6 cmC6 (by decide) rfl).2.1 ⟨11, 10⟩ (by decide),
    (C6_cost_threshold envC6 creepC6 cmC6 (by decide) rfl).2.2 ⟨-1, 0⟩ (by decide) ⟨9, 10⟩
      (by decide) (by decide) (by decide) (by decide) (by decide) (by decide) (by decide) (by decide)⟩

/-! ### C7: working-area demotion -/

/-- A movable intent-free creep at `(10, 10)` with working area centred at
`(8, 10)`, radius 1; its shuffled direction order tries RIGHT before LEFT. -/
def creepC7 : Creep :=
  ⟨0, ⟨10, 10⟩, true, false, 0, [MOVE], none, some ⟨8, 10⟩, 1,
    [⟨1, 0⟩, ⟨-1, 0⟩, ⟨0, -1⟩, ⟨1, -1⟩, ⟨1, 1⟩, ⟨0, 1⟩, ⟨-1, 1⟩, ⟨-1, -1⟩]⟩

/-- A one-creep room whose terrain walls every neighbour of `(10, 10)` except
`(9, 10)` and `(11, 10)`. -/
def envC7 : Env :=
  ⟨[creepC7],
    fun x y => if (x = 9 ∨ x = 10 ∨ x = 11) ∧ (y = 9 ∨ y = 11) then 1 else 0,
    none, 255⟩

/-- C7: the JS candidate generator demotes the out-of-working-area candidate
`(11, 10)` behind the in-area candidate `(9, 10)` without excluding it, but
the TypeScript port ignores the working-area fields and leaves `(11, 10)`
first — the TS code drops the demotion the spec (and the JS original)
requires.  The creep's direction order is a genuine permutation of the eight
direction deltas. -/
theorem C7_working_area_demotion_bug :
    getPossibleMoves envC7 creepC7 = [⟨9, 10⟩, ⟨11, 10⟩] ∧
    getPossibleMovesTs envC7 creepC7 = [⟨11, 10⟩, ⟨9, 10⟩] ∧
    rangeTo ⟨8, 10⟩ 11 10 > creepC7.workingRange ∧
    rangeTo ⟨8, 10⟩ 9 10 ≤ creepC7.workingRange ∧
    creepC7.deltaOrder.Perm directionDeltas :=
  ⟨by decide, by decide, by decide, by decide, by decide⟩

/-! ### Structural facts about the search: visited growth, commit shape,
failure atomicity -/

theorem dfsResult_inj {a b : Option Int} {s t : St} {u w : List Nat}
    (h : (some (a, s, u) : DfsResult) = some (b, t, w)) : a = b ∧ s = t ∧ u = w := by
  simp only [Option.some.injEq, Prod.mk.injEq] at h
  exact ⟨h.1, h.2.1, h.2.2⟩

/-- Relation between the state before and after (part of) a search: the
matched table keeps its length, and every changed entry was committed to one
of that creep's own candidates. -/
def AuxRel (env : Env) (st st' : St) : Prop :=
  st'.matched.length = st.matched.length ∧
  ∀ q, matchedOf st' q = matchedOf st q ∨
    ∃ coord ∈ getPossibleMoves env (creepAt env q),
      matchedOf st' q = some (packCoordinates coord)

theorem auxRel_refl (env : Env) (st : St) : AuxRel env st st :=
  ⟨rfl, fun _ => Or.inl rfl⟩

theorem auxRel_trans {env : Env} {st1 st2 st3 : St}
    (h12 : AuxRel env st1 st2) (h23 : AuxRel env st2 st3) : AuxRel env st1 st3 := by
  refine ⟨h23.1.trans h12.1, fun q => ?_⟩
  rcases h23.2 q with h | ⟨coord, hc, he⟩
  · rw [h]
    exact h12.2 q
  · exact Or.inr ⟨coord, hc, he⟩

theorem auxRel_assign {env : Env} (i : Nat) (coord : Coord) (st : St)
    (hc : coord ∈ getPossibleMoves env (creepAt env i)) :
    AuxRel env st (assignCreepToCoordinate i coord st) := by
  refine ⟨matched_length_assign i coord st, fun q => ?_⟩
  by_cases hq : q = i
  · subst hq
    by_cases hl : q < st.matched.length
    · exact Or.inr ⟨coord, hc, matchedOf_assign_self q coord st hl⟩
    · left
      show matchedOf ⟨_, st.matched.set q _⟩ q = matchedOf st q
      rw [List.set_eq_of_length_le (by omega)]
      rfl
  · exact Or.inl (matchedOf_assign_ne i coord st q hq)

/-- Structural facts about one pass of the candidate loop, given the same
facts about the recursive calls. -/
theorem dfsLoop_aux (env : Env) (rec : Nat → Int → St → List Nat → DfsResult) (i : Nat)
    (hrec : ∀ j score st v res st' v', rec j score st v = some (res, st', v') →
      (∀ nm, v.contains nm = true → v'.contains nm = true) ∧
      AuxRel env st st' ∧
      ((∀ r, res = some r → r ≤ 0) → st' = st)) :
    ∀ coords score st v res st' v',
      (∀ coord ∈ coords, coord ∈ getPossibleMoves env (creepAt env i)) →
      dfsLoop env rec i coords score st v = some (res, st', v') →
      (∀ nm, v.contains nm = true → v'.contains nm = true) ∧
      AuxRel env st st' ∧
      ((∀ r, res = some r → r ≤ 0) → st' = st) := by
  intro coords
  induction coords with
  | nil =>
    intro score st v res st' v' _ h
    simp only [dfsLoop] at h
    obtain ⟨rfl, rfl, rfl⟩ := dfsResult_inj h
    exact ⟨fun _ hnm => hnm, auxRel_refl env st, fun _ => rfl⟩
  | cons coord rest ih =>
    intro score st v res st' v' hsub h
    simp only [dfsLoop] at h
    generalize hs1 : (if (creepAt env i).intended == some (packCoordinates coord)
      then score + 1 else score) = score1 at h
    split at h
    · -- the candidate cell is unoccupied
      split at h
      · -- positive score: commit and return
        obtain ⟨rfl, rfl, rfl⟩ := dfsResult_inj h
        refine ⟨fun _ hnm => hnm,
          auxRel_assign i coord st (hsub coord (List.mem_cons_self _ _)), ?_⟩
        intro hnp
        have := hnp _ rfl
        omega
      · -- non-positive score: return without committing
        obtain ⟨rfl, rfl, rfl⟩ := dfsResult_inj h
        exact ⟨fun _ hnm => hnm, auxRel_refl env st, fun _ => rfl⟩
    · -- occupied
      next j hj =>
      split at h
      · -- occupant already visited: next candidate
        exact ih _ _ _ _ _ _ (fun c hc => hsub c (List.mem_cons_of_mem _ hc)) h
      · -- recurse into the occupant
        generalize hs2 : (if (creepAt env j).intended == some (packCoordinates coord)
          then score1 - 1 else score1) = score2 at h
        split at h
        · exact Option.noConfusion h
        · next res2 st2 v2 hreceq =>
          obtain ⟨hmono2, hrel2, hatom2⟩ := hrec _ _ _ _ _ _ _ hreceq
          split at h
          · -- the recursive call returned a numeric score
            split at h
            · -- positive: commit and propagate
              obtain ⟨rfl, rfl, rfl⟩ := dfsResult_inj h
              refine ⟨hmono2,
                auxRel_trans hrel2
                  (auxRel_assign i coord st2 (hsub coord (List.mem_cons_self _ _))), ?_⟩
              intro hnp
              have := hnp _ rfl
              omega
            · -- non-positive: state unchanged, next candidate
              have hst2 : st2 = st := hatom2 (by
                intro r hr
                cases hr
                omega)
              subst hst2
              obtain ⟨hm, hr, ha⟩ := ih _ _ _ _ _ _
                (fun c hc => hsub c (List.mem_cons_of_mem _ hc)) h
              exact ⟨fun nm hnm => hm nm (hmono2 nm hnm), hr, ha⟩
          · -- the recursive call returned -Infinity: state unchanged
            have hst2 : st2 = st := hatom2 (fun r hr => Option.noConfusion hr)
            subst hst2
            obtain ⟨hm, hr, ha⟩ := ih _ _ _ _ _ _
              (fun c hc => hsub c (List.mem_cons_of_mem _ hc)) h
            exact ⟨fun nm hnm => hm nm (hmono2 nm hnm), hr, ha⟩

/-- Structural facts about `dfs`: the visited set only grows, the matched
table keeps its length and changes only by commits to a creep's own
candidates, and a non-positive (or `-Infinity`) result leaves the state
untouched. -/
theorem dfs_aux (env : Env) : ∀ fuel i score st v res st' v',
    dfs env fuel i score st v = some (res, st', v') →
    (∀ nm, v.contains nm = true → v'.contains nm = true) ∧
    AuxRel env st st' ∧
    ((∀ r, res = some r → r ≤ 0) → st' = st) := by
  intro fuel
  induction fuel with
  | zero => intro i score st v res st' v' h; exact Option.noConfusion h
  | succ fuel ih =>
    intro i score st v res st' v' h
    simp only [dfs] at h
    split at h
    · -- not an owned creep
      obtain ⟨rfl, rfl, rfl⟩ := dfsResult_inj h
      refine ⟨fun nm hnm => ?_, auxRel_refl env st, fun _ => rfl⟩
      simp only [List.contains_cons, Bool.or_eq_true]
      right
      exact hnm
    · have hsub : ∀ coord ∈
          (getPossibleMoves env (creepAt env i)).filter
            (fun coord => (mmGet st.mm (packCoordinates coord)).isNone) ++
          (getPossibleMoves env (creepAt env i)).filter
            (fun coord => (mmGet st.mm (packCoordinates coord)).isSome),
          coord ∈ getPossibleMoves env (creepAt env i) := by
        intro c hc
        rcases List.mem_append.mp hc with hc | hc
        · exact (List.mem_filter.mp hc).1
        · exact (List.mem_filter.mp hc).1
      obtain ⟨hm, hr, ha⟩ := dfsLoop_aux env (dfs env fuel) i
        (fun j score st v res st' v' hcall => ih j score st v res st' v' hcall)
        _ _ _ _ _ _ _ hsub h
      refine ⟨fun nm hnm => hm nm ?_, hr, ha⟩
      simp only [List.contains_cons, Bool.or_eq_true]
      right
      exact hnm

/-! ### The matching invariant and the success postcondition of the search -/

/-- The central invariant: the movement map is exactly the graph of the
matched-coordinate table (a partial bijection into the roster). -/
def MapInv (env : Env) (st : St) : Prop :=
  st.matched.length = env.roster.length ∧
  (∀ i p, matchedOf st i = some p → mmGet st.mm p = some i) ∧
  (∀ p i, mmGet st.mm p = some i → i < env.roster.length ∧ matchedOf st i = some p)

/-- Postcondition of a successful (positive-score) `dfs` call on creep `i`
with visited set `v`: the map/matched graph is intact except for the single
stale map entry at `i`'s old matched cell, `i` was committed to a new cell,
and cells occupied by `i` or by already-visited creeps (and the matched cells
of visited creeps) are untouched. -/
def DfsPost (env : Env) (i : Nat) (v : List Nat) (st st' : St) : Prop :=
  (∀ q p, matchedOf st' q = some p → mmGet st'.mm p = some q) ∧
  (∀ p q, mmGet st'.mm p = some q → q < env.roster.length ∧
    (matchedOf st' q = some p ∨ (q = i ∧ matchedOf st q = some p))) ∧
  (∃ p, matchedOf st' i = some p ∧ mmGet st'.mm p = some i ∧ matchedOf st i ≠ some p) ∧
  (∀ p q, mmGet st.mm p = some q →
    ((creepAt env q).name = (creepAt env i).name ∨ v.contains (creepAt env q).name = true) →
    mmGet st'.mm p = some q) ∧
  (∀ q, v.contains (creepAt env q).name = true → matchedOf st' q = matchedOf st q)

/-- Loop-level variant of `DfsPost` (the visited set already holds `i`'s
name, so the untouched-cells conditions mention only `v`). -/
def DfsPostLoop (env : Env) (i : Nat) (v : List Nat) (st st' : St) : Prop :=
  (∀ q p, matchedOf st' q = some p → mmGet st'.mm p = some q) ∧
  (∀ p q, mmGet st'.mm p = some q → q < env.roster.length ∧
    (matchedOf st' q = some p ∨ (q = i ∧ matchedOf st q = some p))) ∧
  (∃ p, matchedOf st' i = some p ∧ mmGet st'.mm p = some i ∧ matchedOf st i ≠ some p) ∧
  (∀ p q, mmGet st.mm p = some q → v.contains (creepAt env q).name = true →
    mmGet st'.mm p = some q) ∧
  (∀ q, q ≠ i → v.contains (creepAt env q).name = true → matchedOf st' q = matchedOf st q)

theorem dfsPostLoop_mono_v (env : Env) (i : Nat) {v v' : List Nat} {st st' : St}
    (hsub : ∀ nm, v.contains nm = true → v'.contains nm = true)
    (h : DfsPostLoop env i v' st st') : DfsPostLoop env i v st st' :=
  ⟨h.1, h.2.1, h.2.2.1,
    fun p q hpq hv => h.2.2.2.1 p q hpq (hsub _ hv),
    fun q hq hv => h.2.2.2.2 q hq (hsub _ hv)⟩

theorem dfsPost_of_loop (env : Env) (i : Nat) (v : List Nat) (st st' : St)
    (hni : v.contains (creepAt env i).name = false)
    (h : DfsPostLoop env i ((creepAt env i).name :: v) st st') : DfsPost env i v st st' := by
  refine ⟨h.1, h.2.1, h.2.2.1, ?_, ?_⟩
  · intro p q hpq hcond
    refine h.2.2.2.1 p q hpq ?_
    simp only [List.contains_cons, Bool.or_eq_true, beq_iff_eq]
    rcases hcond with hcond | hcond
    · exact Or.inl hcond
    · exact Or.inr hcond
  · intro q hq
    have hqi : q ≠ i := by
      intro hqe
      subst hqe
      rw [hq] at hni
      exact Bool.noConfusion hni
    refine h.2.2.2.2 q hqi ?_
    simp only [List.contains_cons, Bool.or_eq_true]
    exact Or.inr hq

/-- Committing to an unoccupied candidate preserves the graph invariant as
described by `DfsPostLoop`. -/
theorem post_assign_empty (env : Env) (i : Nat) (v : List Nat) (coord : Coord) (st : St)
    (hInv : MapInv env st) (hi : i < env.roster.length)
    (hempty : mmGet st.mm (packCoordinates coord) = none) :
    DfsPostLoop env i v st (assignCreepToCoordinate i coord st) := by
  obtain ⟨hlen, hA, hB⟩ := hInv
  have hil : i < st.matched.length := by omega
  refine ⟨?_, ?_, ?_, ?_, ?_⟩
  · intro q p hqp
    by_cases hq : q = i
    · subst hq
      rw [matchedOf_assign_self q coord st hil] at hqp
      cases hqp
      rw [mm_assign, if_pos rfl]
    · rw [matchedOf_assign_ne i coord st q hq] at hqp
      have := hA q p hqp
      rw [mm_assign]
      rw [if_neg ?_]
      · exact this
      · intro hpe
        rw [hpe] at this
        rw [hempty] at this
        exact Option.noConfusion this
  · intro p q hpq
    rw [mm_assign] at hpq
    by_cases hp : p = packCoordinates coord
    · rw [if_pos hp] at hpq
      cases hpq
      refine ⟨hi, Or.inl ?_⟩
      rw [hp]
      exact matchedOf_assign_self i coord st hil
    · rw [if_neg hp] at hpq
      obtain ⟨hqn, hqm⟩ := hB p q hpq
      by_cases hq : q = i
      · subst hq
        exact ⟨hqn, Or.inr ⟨rfl, hqm⟩⟩
      · exact ⟨hqn, Or.inl (by rw [matchedOf_assign_ne i coord st q hq]; exact hqm)⟩
  · refine ⟨packCoordinates coord, matchedOf_assign_self i coord st hil,
      by rw [mm_assign, if_pos rfl], ?_⟩
    intro hme
    have := hA i _ hme
    rw [hempty] at this
    exact Option.noConfusion this
  · intro p q hpq _
    rw [mm_assign, if_neg ?_]
    · exact hpq
    · intro hpe
      rw [hpe, hempty] at hpq
      exact Option.noConfusion hpq
  · intro q hq _
    exact matchedOf_assign_ne i coord st q hq

/-- Committing a creep onto the cell its successfully-displaced occupant just
vacated restores the graph invariant one level up the chain. -/
theorem post_assign_chain (env : Env) (i j : Nat) (v : List Nat) (coord : Coord) (st st2 : St)
    (hInv : MapInv env st) (hi : i < env.roster.length)
    (hocc : mmGet st.mm (packCoordinates coord) = some j)
    (hnv : v.contains (creepAt env j).name = false)
    (hvi : v.contains (creepAt env i).name = true)
    (hlen2 : st2.matched.length = st.matched.length)
    (hpost : DfsPost env j v st st2) :
    DfsPostLoop env i v st (assignCreepToCoordinate i coord st2) := by
  obtain ⟨hlen, hA, hB⟩ := hInv
  obtain ⟨chA, chB, ⟨cj, hcjm, hcjmm, hcjne⟩, chNT, chMNT⟩ := hpost
  have hil2 : i < st2.matched.length := by omega
  obtain ⟨hjn, hmj⟩ := hB _ j hocc
  have hmm2P : mmGet st2.mm (packCoordinates coord) = some j :=
    chNT _ j hocc (Or.inl rfl)
  have hcjP : some cj ≠ matchedOf st j := fun h => hcjne h.symm
  refine ⟨?_, ?_, ?_, ?_, ?_⟩
  · intro q p hqp
    by_cases hq : q = i
    · subst hq
      rw [matchedOf_assign_self q coord st2 hil2] at hqp
      cases hqp
      rw [mm_assign, if_pos rfl]
    · rw [matchedOf_assign_ne i coord st2 q hq] at hqp
      have h2 := chA q p hqp
      rw [mm_assign]
      by_cases hp : p = packCoordinates coord
      · exfalso
        rw [hp, hmm2P] at h2
        cases h2
        rw [hmj] at hcjP
        rw [hp] at hqp
        rw [hqp] at hcjm
        cases hcjm
        exact hcjP rfl
      · rw [if_neg hp]
        exact h2
  · intro p q hpq
    rw [mm_assign] at hpq
    by_cases hp : p = packCoordinates coord
    · rw [if_pos hp] at hpq
      cases hpq
      refine ⟨hi, Or.inl ?_⟩
      rw [hp]
      exact matchedOf_assign_self i coord st2 hil2
    · rw [if_neg hp] at hpq
      obtain ⟨hqn, hqalt⟩ := chB p q hpq
      rcases hqalt with hqm | ⟨hqj, hqm⟩
      · by_cases hq : q = i
        · subst hq
          have := chMNT q hvi
          rw [this] at hqm
          exact ⟨hqn, Or.inr ⟨rfl, hqm⟩⟩
        · exact ⟨hqn, Or.inl (by rw [matchedOf_assign_ne i coord st2 q hq]; exact hqm)⟩
      · exfalso
        subst hqj
        rw [hmj] at hqm
        cases hqm
        exact hp rfl
  · refine ⟨packCoordinates coord, matchedOf_assign_self i coord st2 hil2,
      by rw [mm_assign, if_pos rfl], ?_⟩
    intro hme
    have := hA i _ hme
    rw [hocc] at this
    cases this
    rw [hvi] at hnv
    exact Bool.noConfusion hnv
  · intro p q hpq hvq
    by_cases hp : p = packCoordinates coord
    · exfalso
      rw [hp, hocc] at hpq
      cases hpq
      rw [hvq] at hnv
      exact Bool.noConfusion hnv
    · rw [mm_assign, if_neg hp]
      exact chNT p q hpq (Or.inr hvq)
  · intro q hq hvq
    rw [matchedOf_assign_ne i coord st2 q hq]
    exact chMNT q hvq

/-- Success postcondition of the candidate loop, given it for the recursive
calls. -/
theorem dfsLoop_success (env : Env) (fuel : Nat)
    (hrec : ∀ i score st v r st' v',
      dfs env fuel i score st v = some (some r, st', v') → 0 < r →
      MapInv env st → i < env.roster.length →
      v.contains (creepAt env i).name = false →
      DfsPost env i v st st') (i : Nat) :
    ∀ coords score st v r st' v',
      dfsLoop env (dfs env fuel) i coords score st v = some (some r, st', v') → 0 < r →
      MapInv env st → i < env.roster.length →
      v.contains (creepAt env i).name = true →
      DfsPostLoop env i v st st' := by
  intro coords
  induction coords with
  | nil =>
    intro score st v r st' v' h
    simp only [dfsLoop] at h
    obtain ⟨he, _, _⟩ := dfsResult_inj h
    exact Option.noConfusion he
  | cons coord rest ih =>
    intro score st v r st' v' h hr hInv hi hvi
    simp only [dfsLoop] at h
    generalize hs1 : (if (creepAt env i).intended == some (packCoordinates coord)
      then score + 1 else score) = score1 at h
    split at h
    · next hempty =>
      split at h
      · obtain ⟨he, rfl, rfl⟩ := dfsResult_inj h
        cases he
        exact post_assign_empty env i v coord st hInv hi hempty
      · obtain ⟨he, rfl, rfl⟩ := dfsResult_inj h
        cases he
        omega
    · next j hocc =>
      split at h
      · exact ih _ _ _ _ _ _ h hr hInv hi hvi
      · next hnv =>
        generalize hs2 : (if (creepAt env j).intended == some (packCoordinates coord)
          then score1 - 1 else score1) = score2 at h
        split at h
        · exact Option.noConfusion h
        · next res2 st2 v2 hreceq =>
          have haux := dfs_aux env fuel j score2 st v res2 st2 v2 hreceq
          split at h
          · next r2 =>
            split at h
            · next hr2 =>
              obtain ⟨he, rfl, rfl⟩ := dfsResult_inj h
              cases he
              have hnv' : v.contains (creepAt env j).name = false := by
                simpa using hnv
              have hjn : j < env.roster.length := (hInv.2.2 _ j hocc).1
              have hpost := hrec j score2 st v r st2 v2 hreceq hr2 hInv hjn hnv'
              exact post_assign_chain env i j v coord st st2 hInv hi hocc hnv' hvi
                haux.2.1.1 hpost
            · next hr2 =>
              have hst2 : st2 = st := haux.2.2 (by
                intro r' hr'
                cases hr'
                omega)
              subst hst2
              have := ih _ _ _ _ _ _ h hr hInv hi (haux.1 _ hvi)
              exact dfsPostLoop_mono_v env i haux.1 this
          · have hst2 : st2 = st := haux.2.2 (fun r' hr' => Option.noConfusion hr')
            subst hst2
            have := ih _ _ _ _ _ _ h hr hInv hi (haux.1 _ hvi)
            exact dfsPostLoop_mono_v env i haux.1 this

/-- Success postcondition of `depthFirstSearch`: a positive returned score
means the creep was committed to a new cell and the movement-map/matched
graph is intact except for the creep's own stale old entry. -/
theorem dfs_success (env : Env) : ∀ fuel i score st v r st' v',
    dfs env fuel i score st v = some (some r, st', v') → 0 < r →
    MapInv env st → i < env.roster.length →
    v.contains (creepAt env i).name = false →
    DfsPost env i v st st' := by
  intro fuel
  induction fuel with
  | zero => intro i score st v r st' v' h; exact Option.noConfusion h
  | succ fuel ihf =>
    intro i score st v r st' v' h hr hInv hi hni
    simp only [dfs] at h
    split at h
    · obtain ⟨he, _, _⟩ := dfsResult_inj h
      exact Option.noConfusion he
    · have hloop := dfsLoop_success env fuel ihf i _ _ _ _ _ _ _ h hr hInv hi
        (by simp [List.contains_cons])
      exact dfsPost_of_loop env i v st st' hni hloop

/-! ### Fuel sufficiency: the visited set bounds the recursion depth -/

theorem contains_true_iff (v : List Nat) (nm : Nat) : v.contains nm = true ↔ nm ∈ v := by
  induction v with
  | nil => simp
  | cons a rest ih => simp [List.contains_cons, ih]

/-- Number of distinct roster names not yet visited. -/
def namesLeft (env : Env) (v : List Nat) : Nat :=
  ((env.roster.map Creep.name).toFinset.filter (fun nm => nm ∉ v)).card

theorem namesLeft_mono (env : Env) {v v' : List Nat}
    (h : ∀ nm, nm ∈ v → nm ∈ v') : namesLeft env v' ≤ namesLeft env v := by
  apply Finset.card_le_card
  intro nm hnm
  rw [Finset.mem_filter] at hnm ⊢
  exact ⟨hnm.1, fun hv => hnm.2 (h nm hv)⟩

theorem name_mem_roster (env : Env) (j : Nat) (hj : j < env.roster.length) :
    (creepAt env j).name ∈ env.roster.map Creep.name := by
  apply List.mem_map.mpr
  refine ⟨creepAt env j, ?_, rfl⟩
  show env.roster.getD j default ∈ env.roster
  rw [List.getD_eq_getElem?_getD, List.getElem?_eq_getElem hj]
  exact List.getElem_mem hj

theorem namesLeft_cons_lt (env : Env) (j : Nat) (v : List Nat)
    (hj : j < env.roster.length) (hnv : (creepAt env j).name ∉ v) :
    namesLeft env ((creepAt env j).name :: v) < namesLeft env v := by
  apply Finset.card_lt_card
  constructor
  · intro nm hnm
    rw [Finset.mem_filter] at hnm ⊢
    refine ⟨hnm.1, fun hv => hnm.2 (List.mem_cons_of_mem _ hv)⟩
  · intro hsub
    have h1 : (creepAt env j).name ∈
        (env.roster.map Creep.name).toFinset.filter (fun nm => nm ∉ v) := by
      rw [Finset.mem_filter]
      exact ⟨List.mem_toFinset.mpr (name_mem_roster env j hj), hnv⟩
    have h2 := hsub h1
    rw [Finset.mem_filter] at h2
    exact h2.2 (List.mem_cons_self _ _)

theorem namesLeft_le (env : Env) (v : List Nat) :
    namesLeft env v ≤ env.roster.length := by
  calc namesLeft env v ≤ (env.roster.map Creep.name).toFinset.card :=
        Finset.card_filter_le _ _
    _ ≤ (env.roster.map Creep.name).length := List.toFinset_card_le _
    _ = env.roster.length := List.length_map _ _

/-- Fuel sufficiency for the candidate loop. -/
theorem dfsLoop_fuel (env : Env) (fuel : Nat)
    (hrec : ∀ j score st v, MapInv env st → j < env.roster.length →
      (creepAt env j).name ∉ v →
      namesLeft env ((creepAt env j).name :: v) < fuel →
      dfs env fuel j score st v ≠ none) (i : Nat) :
    ∀ coords score st v, MapInv env st → namesLeft env v ≤ fuel →
      dfsLoop env (dfs env fuel) i coords score st v ≠ none := by
  intro coords
  induction coords with
  | nil => intro score st v _ _; simp [dfsLoop]
  | cons coord rest ih =>
    intro score st v hInv hnl
    simp only [dfsLoop]
    split
    · split <;> split <;> simp
    · next j hocc =>
      split
      · exact ih _ _ _ hInv hnl
      · next hnv =>
        have hjn : j < env.roster.length := (hInv.2.2 _ j hocc).1
        have hnv' : (creepAt env j).name ∉ v := by
          intro hmem
          rw [(contains_true_iff v _).mpr hmem] at hnv
          exact hnv rfl
        generalize (if (creepAt env j).intended == some (packCoordinates coord)
          then (if (creepAt env i).intended == some (packCoordinates coord)
            then score + 1 else score) - 1
          else (if (creepAt env i).intended == some (packCoordinates coord)
            then score + 1 else score)) = score2
        have hcall := hrec j score2 st v hInv hjn hnv'
          (lt_of_lt_of_le (namesLeft_cons_lt env j v hjn hnv') hnl)
        cases hsub : dfs env fuel j score2 st v with
        | none => exact absurd hsub hcall
        | some val =>
          obtain ⟨res2, st2, v2⟩ := val
          have haux := dfs_aux env fuel j _ st v res2 st2 v2 hsub
          cases res2 with
          | some r2 =>
            by_cases hr2 : r2 > 0
            · simp [hr2]
            · simp only [if_neg hr2]
              have hst2 : st2 = st := haux.2.2 (by
                intro r' hr'
                cases hr'
                omega)
              subst hst2
              refine ih _ _ _ hInv (le_trans (namesLeft_mono env ?_) hnl)
              intro nm hnm
              exact (contains_true_iff _ _).mp (haux.1 nm ((contains_true_iff _ _).mpr hnm))
          | none =>
            have hst2 : st2 = st := haux.2.2 (fun r' hr' => Option.noConfusion hr')
            subst hst2
            refine ih _ _ _ hInv (le_trans (namesLeft_mono env ?_) hnl)
            intro nm hnm
            exact (contains_true_iff _ _).mp (haux.1 nm ((contains_true_iff _ _).mpr hnm))

/-- `depthFirstSearch` terminates within fuel bounded by the number of
not-yet-visited distinct creep names: each recursive call targets a creep
not in the visited set and every call adds its creep to that set. -/
theorem dfs_fuel (env : Env) : ∀ fuel i score st v,
    MapInv env st → i < env.roster.length → (creepAt env i).name ∉ v →
    namesLeft env ((creepAt env i).name :: v) < fuel →
    dfs env fuel i score st v ≠ none := by
  intro fuel
  induction fuel with
  | zero => intro i score st v _ _ _ hlt; omega
  | succ fuel ih =>
    intro i score st v hInv hi hni hlt
    simp only [dfs]
    split
    · simp
    · exact dfsLoop_fuel env fuel ih i _ _ _ _ hInv (by omega)

/-! ### Run-level machinery -/

theorem intendedTruthy_eq_some {c : Creep} {ip : Int}
    (h : intendedTruthy c = some ip) : c.intended = some ip ∧ ip ≠ 0 := by
  unfold intendedTruthy at h
  split at h
  · next p hp =>
    split at h
    · exact Option.noConfusion h
    · next hz =>
      cases h
      exact ⟨hp, by simpa using hz⟩
  · exact Option.noConfusion h

theorem mem_moves_of_intent {env : Env} {c : Creep} {ip : Int} {coord : Coord}
    (hit : intendedTruthy c = some ip) (hc : coord ∈ getPossibleMoves env c) :
    coord = unpackCoordinates ip := by
  unfold getPossibleMoves at hc
  split at hc
  · simp at hc
  · rw [hit] at hc
    simpa using hc

theorem getPossibleMoves_of_immovable {env : Env} {c : Creep}
    (h : canMove c = false) : getPossibleMoves env c = [] := by
  unfold getPossibleMoves
  rw [h]
  rfl

theorem matchedOf_lt_length {st : St} {i : Nat} {p : Int}
    (h : matchedOf st i = some p) : i < st.matched.length := by
  by_contra hle
  rw [matchedOf, List.getD_eq_default _ _ (by omega)] at h
  exact Option.noConfusion h

theorem mapInv_delete (env : Env) (st : St) (k : Nat) (p : Int)
    (hInv : MapInv env st) (hm : matchedOf st k = some p) :
    MapInv env ⟨mmDel st.mm p, st.matched.set k none⟩ := by
  obtain ⟨hlen, hA, hB⟩ := hInv
  have hkl : k < st.matched.length := matchedOf_lt_length hm
  refine ⟨by simpa using hlen, ?_, ?_⟩
  · intro q p' hqp
    by_cases hq : q = k
    · subst hq
      rw [matchedOf_set_self st _ q none hkl] at hqp
      exact Option.noConfusion hqp
    · rw [matchedOf_set_ne st _ k q none hq] at hqp
      have h1 := hA q p' hqp
      rw [mmGet_del, if_neg ?_]
      · exact h1
      · intro hpe
        subst hpe
        have h2 := hA k p' hm
        rw [h1] at h2
        cases h2
        exact hq rfl
  · intro p' q hpq
    rw [mmGet_del] at hpq
    split at hpq
    · exact Option.noConfusion hpq
    · next hpne =>
      obtain ⟨hqn, hqm⟩ := hB p' q hpq
      refine ⟨hqn, ?_⟩
      by_cases hq : q = k
      · subst hq
        rw [hm] at hqm
        cases hqm
        exact absurd rfl hpne
      · rw [matchedOf_set_ne st _ k q none hq]
        exact hqm

theorem mapInv_assign_empty (env : Env) (st : St) (i : Nat) (coord : Coord)
    (hInv : MapInv env st) (hi : i < env.roster.length)
    (hempty : mmGet st.mm (packCoordinates coord) = none)
    (hmat : matchedOf st i = none) :
    MapInv env (assignCreepToCoordinate i coord st) := by
  obtain ⟨hlen, hA, hB⟩ := hInv
  have hil : i < st.matched.length := by omega
  refine ⟨by simpa [assignCreepToCoordinate] using hlen, ?_, ?_⟩
  · intro q p' hqp
    by_cases hq : q = i
    · subst hq
      rw [matchedOf_assign_self q coord st hil] at hqp
      cases hqp
      rw [mm_assign, if_pos rfl]
    · rw [matchedOf_assign_ne i coord st q hq] at hqp
      have h1 := hA q p' hqp
      rw [mm_assign, if_neg ?_]
      · exact h1
      · intro hpe
        rw [hpe, hempty] at h1
        exact Option.noConfusion h1
  · intro p' q hpq
    rw [mm_assign] at hpq
    split at hpq
    · next hpe =>
      cases hpq
      subst hpe
      exact ⟨hi, matchedOf_assign_self i coord st hil⟩
    · next hpne =>
      obtain ⟨hqn, hqm⟩ := hB p' q hpq
      refine ⟨hqn, ?_⟩
      by_cases hq : q = i
      · subst hq
        rw [hmat] at hqm
        exact Option.noConfusion hqm
      · rw [matchedOf_assign_ne i coord st q hq]
        exact hqm

/-- Partial initial fold of the self-assignment phase. -/
def initFold (env : Env) (k : Nat) : St :=
  (List.range k).foldl
    (fun st i => assignCreepToCoordinate i (creepAt env i).pos st)
    ⟨[], List.replicate env.roster.length none⟩

theorem initFold_spec (env : Env)
    (hpos : ∀ i j, i < env.roster.length → j < env.roster.length →
      packCoordinates (creepAt env i).pos = packCoordinates (creepAt env j).pos → i = j) :
    ∀ k, k ≤ env.roster.length →
      (initFold env k).matched.length = env.roster.length ∧
      (∀ i, matchedOf (initFold env k) i =
        if i < k then some (packCoordinates (creepAt env i).pos) else none) ∧
      (∀ p q, mmGet (initFold env k).mm p = some q ↔
        q < k ∧ p = packCoordinates (creepAt env q).pos) := by
  intro k
  induction k with
  | zero =>
    intro _
    refine ⟨by simp [initFold], ?_, ?_⟩
    · intro i
      show (List.replicate env.roster.length (none : Option Int)).getD i none = none
      by_cases hi : i < env.roster.length
      · rw [List.getD_eq_getElem?_getD, List.getElem?_replicate, if_pos hi]
        rfl
      · rw [List.getD_eq_default _ _ (by simpa using hi)]
    · intro p q
      constructor
      · intro h
        exact Option.noConfusion h
      · intro ⟨h, _⟩
        omega
  | succ k ih =>
    intro hk
    obtain ⟨ihl, ihm, ihmm⟩ := ih (by omega)
    have hstep : initFold env (k + 1) =
        assignCreepToCoordinate k (creepAt env k).pos (initFold env k) := by
      unfold initFold
      rw [List.range_succ, List.foldl_append]
      rfl
    have hkl : k < (initFold env k).matched.length := by omega
    refine ⟨by rw [hstep, matched_length_assign]; exact ihl, ?_, ?_⟩
    · intro i
      rw [hstep]
      by_cases hi : i = k
      · subst hi
        rw [matchedOf_assign_self i _ _ hkl, if_pos (by omega)]
      · rw [matchedOf_assign_ne _ _ _ i hi, ihm i]
        by_cases hik : i < k
        · rw [if_pos hik, if_pos (by omega)]
        · rw [if_neg hik, if_neg (by omega)]
    · intro p q
      rw [hstep, mm_assign]
      by_cases hp : p = packCoordinates (creepAt env k).pos
      · rw [if_pos hp]
        constructor
        · intro h
          cases h
          exact ⟨by omega, hp⟩
        · intro ⟨hq, hpq⟩
          rw [hp] at hpq
          by_cases hqk : q = k
          · rw [hqk]
          · exfalso
            exact hqk (hpos q k (by omega) (by omega) hpq.symm)
      · rw [if_neg hp]
        rw [ihmm p q]
        constructor
        · intro ⟨h1, h2⟩
          exact ⟨by omega, h2⟩
        · intro ⟨h1, h2⟩
          refine ⟨?_, h2⟩
          by_cases hqk : q = k
          · subst hqk
            exact absurd h2.symm (by rw [eq_comm] at hp ⊢; exact fun h => hp h.symm)
          · omega

theorem initState_eq_initFold (env : Env) :
    initState env = initFold env env.roster.length := rfl

/-- Roster well-formedness: unique names, distinct (packed) positions and
non-negative registered packed intents (all guaranteed by the game and by
`registerMove`, which packs clamped in-room coordinates). -/
def RosterWF (env : Env) : Prop :=
  (∀ i j, i < env.roster.length → j < env.roster.length →
    (creepAt env i).name = (creepAt env j).name → i = j) ∧
  (∀ i j, i < env.roster.length → j < env.roster.length →
    packCoordinates (creepAt env i).pos = packCoordinates (creepAt env j).pos → i = j) ∧
  (∀ i, i < env.roster.length → ∀ p, (creepAt env i).intended = some p → 0 ≤ p)

/-- Invariant of the main loop of `run` after the first `k` creeps have been
processed. -/
def RunInv (env : Env) (k : Nat) (st : St) : Prop :=
  MapInv env st ∧
  (∀ q, q < env.roster.length → (matchedOf st q).isSome = true) ∧
  (∀ j, k ≤ j → j < env.roster.length → ∀ ip, intendedTruthy (creepAt env j) = some ip →
    matchedOf st j = some ip ∨ matchedOf st j = some (packCoordinates (creepAt env j).pos))

theorem runInv_init (env : Env) (hWF : RosterWF env) : RunInv env 0 (initState env) := by
  obtain ⟨hspecl, hspecm, hspecmm⟩ :=
    initFold_spec env hWF.2.1 env.roster.length (le_refl _)
  rw [initState_eq_initFold]
  refine ⟨⟨hspecl, ?_, ?_⟩, ?_, ?_⟩
  · intro i p hip
    rw [hspecm i] at hip
    split at hip
    · next hi =>
      cases hip
      exact (hspecmm _ i).mpr ⟨hi, rfl⟩
    · exact Option.noConfusion hip
  · intro p i hpi
    obtain ⟨hi, hpe⟩ := (hspecmm p i).mp hpi
    refine ⟨hi, ?_⟩
    rw [hspecm i, if_pos hi, hpe]
  · intro q hq
    rw [hspecm q, if_pos hq]
    rfl
  · intro j _ hj ip _
    right
    rw [hspecm j, if_pos hj]

/-- Processing one creep preserves the run invariant (and cannot exhaust the
embedded fuel). -/
theorem runStep_preserves (env : Env) (hWF : RosterWF env) (k : Nat)
    (hk : k < env.roster.length) (st : St) (hRI : RunInv env k st) :
    ∃ st', runStep env k st = some st' ∧ RunInv env (k + 1) st' := by
  obtain ⟨hInv, hsome, hints⟩ := hRI
  simp only [runStep]
  cases hit : intendedTruthy (creepAt env k) with
  | none =>
    exact ⟨st, rfl, hInv, hsome, fun j hj hjn ip h => hints j (by omega) hjn ip h⟩
  | some ip =>
    dsimp only
    by_cases hmeq : matchedOf st k = some ip
    · rw [if_pos (by simp [hmeq])]
      exact ⟨st, rfl, hInv, hsome, fun j hj hjn ip' h => hints j (by omega) hjn ip' h⟩
    · rw [if_neg (by simp [hmeq])]
      have hmk : matchedOf st k = some (packCoordinates (creepAt env k).pos) := by
        rcases hints k (le_refl k) hk ip hit with h | h
        · exact absurd h hmeq
        · exact h
      simp only [hmk]
      have hkl : k < st.matched.length := matchedOf_lt_length hmk
      have hInv1 : MapInv env
          ⟨mmDel st.mm (packCoordinates (creepAt env k).pos), st.matched.set k none⟩ :=
        mapInv_delete env st k _ hInv hmk
      have hlen1 : (st.matched.set k none).length = st.matched.length := by simp
      have hfuel : dfs env (env.roster.length + 1) k 0
          ⟨mmDel st.mm (packCoordinates (creepAt env k).pos), st.matched.set k none⟩ [] ≠
            none := by
        apply dfs_fuel env _ k 0 _ [] hInv1 hk (List.not_mem_nil _)
        have h1 : namesLeft env ((creepAt env k).name :: []) ≤ namesLeft env [] :=
          namesLeft_mono env (by intro nm h; exact absurd h (List.not_mem_nil nm))
        have h2 := namesLeft_le env ([] : List Nat)
        omega
      cases hd : dfs env (env.roster.length + 1) k 0
          ⟨mmDel st.mm (packCoordinates (creepAt env k).pos), st.matched.set k none⟩ [] with
      | none => exact absurd hd hfuel
      | some val =>
        obtain ⟨res, st2, v2⟩ := val
        have haux := dfs_aux env _ k 0 _ [] res st2 v2 hd
        have hm1k : matchedOf
            ⟨mmDel st.mm (packCoordinates (creepAt env k).pos), st.matched.set k none⟩ k =
              none := matchedOf_set_self st _ k none hkl
        have hintsStep : ∀ (st' : St),
            (∀ j, j ≠ k → matchedOf st' j = matchedOf st j ∨
              ∃ coord ∈ getPossibleMoves env (creepAt env j),
                matchedOf st' j = some (packCoordinates coord)) →
            (∀ j, k + 1 ≤ j → j < env.roster.length → ∀ ip',
              intendedTruthy (creepAt env j) = some ip' →
              matchedOf st' j = some ip' ∨
                matchedOf st' j = some (packCoordinates (creepAt env j).pos)) := by
          intro st' hchar j hj hjn ip' hit'
          rcases hchar j (by omega) with hch | ⟨coord, hcm, hce⟩
          · rw [hch]
            exact hints j (by omega) hjn ip' hit'
          · left
            rw [hce, mem_moves_of_intent hit' hcm, pack_unpack ip'
              (hWF.2.2 j hjn ip' (intendedTruthy_eq_some hit').1)]
        cases res with
        | some r =>
          dsimp only
          by_cases hr : r > 0
          · rw [if_pos hr]
            have hpost := dfs_success env _ k 0 _ [] r st2 v2 hd hr hInv1 hk rfl
            refine ⟨st2, rfl, ⟨?_, hpost.1, ?_⟩, ?_, ?_⟩
            · have h1 := haux.2.1.1
              simp only [hlen1] at h1
              have h2 := hInv.1
              omega
            · intro p q hpq
              obtain ⟨hqn, hqd⟩ := hpost.2.1 p q hpq
              refine ⟨hqn, ?_⟩
              rcases hqd with h | ⟨rfl, hmm⟩
              · exact h
              · rw [hm1k] at hmm
                exact Option.noConfusion hmm
            · intro q hq
              by_cases hqk : q = k
              · subst hqk
                obtain ⟨p, hp, _, _⟩ := hpost.2.2.1
                rw [hp]
                rfl
              · rcases haux.2.1.2 q with hch | ⟨coord, _, hce⟩
                · rw [hch, matchedOf_set_ne st _ k q none hqk]
                  exact hsome q hq
                · rw [hce]
                  rfl
            · refine hintsStep st2 ?_
              intro j hj
              rcases haux.2.1.2 j with hch | hcom
              · left
                rw [hch]
                exact matchedOf_set_ne st _ k j none hj
              · exact Or.inr hcom
          · rw [if_neg hr]
            have hst2 : st2 = _ := haux.2.2 (by
              intro r' hr'
              cases hr'
              omega)
            subst hst2
            refine ⟨_, rfl, ?_, ?_, ?_⟩
            · refine mapInv_assign_empty env _ k _ hInv1 hk ?_ hm1k
              rw [mmGet_del, if_pos rfl]
            · intro q hq
              by_cases hqk : q = k
              · subst hqk
                rw [matchedOf_assign_self q _ _ (by simpa [hlen1] using hkl)]
                rfl
              · rw [matchedOf_assign_ne _ _ _ q hqk,
                  matchedOf_set_ne st _ k q none hqk]
                exact hsome q hq
            · refine hintsStep _ ?_
              intro j hj
              left
              rw [matchedOf_assign_ne _ _ _ j hj,
                matchedOf_set_ne st _ k j none hj]
        | none =>
          dsimp only
          have hst2 : st2 = _ := haux.2.2 (fun r' hr' => Option.noConfusion hr')
          subst hst2
          refine ⟨_, rfl, ?_, ?_, ?_⟩
          · refine mapInv_assign_empty env _ k _ hInv1 hk ?_ hm1k
            rw [mmGet_del, if_pos rfl]
          · intro q hq
            by_cases hqk : q = k
            · subst hqk
              rw [matchedOf_assign_self q _ _ (by simpa [hlen1] using hkl)]
              rfl
            · rw [matchedOf_assign_ne _ _ _ q hqk,
                matchedOf_set_ne st _ k q none hqk]
              exact hsome q hq
          · refine hintsStep _ ?_
            intro j hj
            left
            rw [matchedOf_assign_ne _ _ _ j hj,
              matchedOf_set_ne st _ k j none hj]

theorem runLoop_spec (env : Env) (hWF : RosterWF env) :
    ∀ m k st, k + m = env.roster.length → RunInv env k st →
      ∃ st', runLoop env (List.range' k m) st = some st' ∧
        RunInv env env.roster.length st' := by
  intro m
  induction m with
  | zero =>
    intro k st hkm hRI
    refine ⟨st, rfl, ?_⟩
    have : k = env.roster.length := by omega
    subst this
    exact hRI
  | succ m ih =>
    intro k st hkm hRI
    rw [List.range'_succ]
    obtain ⟨st1, hs1, hRI1⟩ := runStep_preserves env hWF k (by omega) st hRI
    obtain ⟨st', hs', hRI'⟩ := ih (k + 1) st1 (by omega) hRI1
    refine ⟨st', ?_, hRI'⟩
    simp only [runLoop, hs1]
    exact hs'

/-- A full `run` terminates and establishes the run invariant for a
well-formed roster. -/
theorem run_spec (env : Env) (hWF : RosterWF env) :
    ∃ st', run env = some st' ∧ RunInv env env.roster.length st' := by
  have h0 := runInv_init env hWF
  obtain ⟨st', hs', hRI'⟩ := runLoop_spec env hWF env.roster.length 0 (initState env)
    (by omega) h0
  refine ⟨st', ?_, hRI'⟩
  unfold run
  rw [List.range_eq_range']
  exact hs'

/-! ### C1: the no-collision invariant -/

/-- C1: after one full resolution run completes, the mapping from agent to
its final matched packed coordinate is total and injective: no two distinct
agents share a matched cell.  Well-formedness of the roster (unique names,
distinct cells, and intents produced by `registerMove`, hence with
non-negative packed keys) is assumed. -/
theorem C1_no_collision (env : Env) (hWF : RosterWF env) (st : St)
    (hrun : run env = some st) :
    (∀ i, i < env.roster.length → (matchedOf st i).isSome = true) ∧
    (∀ i j p, i < env.roster.length → j < env.roster.length →
      matchedOf st i = some p → matchedOf st j = some p → i = j) := by
  obtain ⟨st', hs', hRI'⟩ := run_spec env hWF
  rw [hrun] at hs'
  cases hs'
  refine ⟨fun i hi => hRI'.2.1 i hi, ?_⟩
  intro i j p _ _ hip hjp
  have h1 := hRI'.1.2.1 i p hip
  have h2 := hRI'.1.2.1 j p hjp
  rw [h1] at h2
  cases h2
  rfl

/-- A two-creep swap roster used as concrete witness input: creep 0 at
`(5, 5)` intending `(6, 5)` and creep 1 at `(6, 5)` intending `(5, 5)`. -/
def envW2 : Env :=
  ⟨[⟨0, ⟨5, 5⟩, true, false, 0, [MOVE], some (packCoordinates ⟨6, 5⟩), none, 0, directionDeltas⟩,
    ⟨1, ⟨6, 5⟩, true, false, 0, [MOVE], some (packCoordinates ⟨5, 5⟩), none, 0, directionDeltas⟩],
    fun _ _ => 0, none, 255⟩

theorem rosterWF_envW2 : RosterWF envW2 := by
  have h2 : envW2.roster.length = 2 := rfl
  refine ⟨?_, ?_, ?_⟩
  · intro i j hi hj h
    rw [h2] at hi hj
    interval_cases i <;> interval_cases j <;> revert h <;> decide
  · intro i j hi hj h
    rw [h2] at hi hj
    interval_cases i <;> interval_cases j <;> revert h <;> decide
  · intro i hi p hp
    rw [h2] at hi
    interval_cases i
    · have he : (creepAt envW2 0).intended = some 256 := rfl
      rw [he] at hp
      cases hp
      norm_num
    · have he : (creepAt envW2 1).intended = some 255 := rfl
      rw [he] at hp
      cases hp
      norm_num

/-- Witness for C1 on the concrete two-creep swap roster. -/
theorem C1_no_collision_witness :
    RosterWF envW2 ∧ run envW2 = some ⟨[(256, 0), (255, 1)], [some 256, some 255]⟩ ∧
    ((∀ i, i < envW2.roster.length →
        (matchedOf ⟨[(256, 0), (255, 1)], [some 256, some 255]⟩ i).isSome = true) ∧
      (∀ i j p, i < envW2.roster.length → j < envW2.roster.length →
        matchedOf ⟨[(256, 0), (255, 1)], [some 256, some 255]⟩ i = some p →
        matchedOf ⟨[(256, 0), (255, 1)], [some 256, some 255]⟩ j = some p → i = j)) :=
  ⟨rosterWF_envW2, by decide,
    C1_no_collision envW2 rosterWF_envW2 _ (by decide)⟩

/-! ### C9: termination and depth bound -/

/-- C9: for a well-formed roster (in particular unique agent names), a full
`run` terminates — the embedded fuel of `roster.length + 1` it hands each
top-level search is never exhausted — and, in general, any search invocation
completes within fuel exceeding the number of distinct not-yet-visited roster
names: each recursive call targets an agent not in the visited set and every
call adds its agent to that set. -/
theorem C9_termination (env : Env) (hWF : RosterWF env) :
    (run env).isSome = true ∧
    (∀ fuel i score st v, MapInv env st → i < env.roster.length →
      (creepAt env i).name ∉ v →
      namesLeft env ((creepAt env i).name :: v) < fuel →
      (dfs env fuel i score st v).isSome = true) := by
  constructor
  · obtain ⟨st', hs', _⟩ := run_spec env hWF
    rw [hs']
    rfl
  · intro fuel i score st v hInv hi hni hlt
    have hne := dfs_fuel env fuel i score st v hInv hi hni hlt
    cases h : dfs env fuel i score st v with
    | none => exact absurd h hne
    | some val => rfl

/-- Witness for C9 on the two-creep swap roster. -/
theorem C9_termination_witness :
    RosterWF envW2 ∧ (run envW2).isSome = true :=
  ⟨rosterWF_envW2, (C9_termination envW2 rosterWF_envW2).1⟩

/-! ### C10: immovable agents are never displaced -/

theorem canMove_eq_false {c : Creep} (hnp : c.isPowerCreep = false)
    (hcap : 0 < c.fatigue ∨ ∀ part ∈ c.body, part ≠ MOVE) : canMove c = false := by
  unfold canMove
  rw [hnp, if_neg (by simp)]
  by_cases hf : c.fatigue > 0
  · rw [if_pos hf]
  · rw [if_neg hf]
    rcases hcap with hcap | hcap
    · omega
    · rw [List.any_eq_false]
      intro part hp
      simpa using hcap part hp

/-- A single frame of the search on an immovable creep fails immediately and
leaves the state untouched. -/
theorem dfs_immovable_frame (env : Env) (fuel i : Nat) (score : Int) (st : St)
    (v : List Nat) (him : canMove (creepAt env i) = false) :
    dfs env (fuel + 1) i score st v = some (none, st, (creepAt env i).name :: v) := by
  simp only [dfs]
  split
  · rfl
  · rw [getPossibleMoves_of_immovable him]
    simp [dfsLoop]

theorem runStep_immovable (env : Env) (i k : Nat) (st st' : St)
    (him : canMove (creepAt env i) = false)
    (h : runStep env k st = some st')
    (hm : matchedOf st i = some (packCoordinates (creepAt env i).pos)) :
    matchedOf st' i = some (packCoordinates (creepAt env i).pos) := by
  have hil : i < st.matched.length := matchedOf_lt_length hm
  simp only [runStep] at h
  cases hit : intendedTruthy (creepAt env k) with
  | none =>
    rw [hit] at h
    cases h
    exact hm
  | some ip =>
    rw [hit] at h
    dsimp only at h
    split at h
    · cases h
      exact hm
    · by_cases hki : k = i
      · subst hki
        rw [hm] at h
        dsimp only at h
        rw [dfs_immovable_frame env env.roster.length k 0 _ _ him] at h
        dsimp only at h
        cases h
        rw [matchedOf_assign_self k _ _ (by simpa using hil)]
      · have hstep : ∀ st1 : St, st1.matched = st.matched.set k none →
            ∀ res st2 v2, dfs env (env.roster.length + 1) k 0 st1 [] = some (res, st2, v2) →
            matchedOf st2 i = some (packCoordinates (creepAt env i).pos) := by
          intro st1 hst1 res st2 v2 hd
          have haux := dfs_aux env _ k 0 st1 [] res st2 v2 hd
          have hm1 : matchedOf st1 i = some (packCoordinates (creepAt env i).pos) := by
            show st1.matched.getD i none = _
            rw [hst1]
            have := matchedOf_set_ne st st1.mm k i none (fun hIk => hki hIk.symm)
            exact this.trans hm
          rcases haux.2.1.2 i with hch | ⟨coord, hcm, _⟩
          · rw [hch]
            exact hm1
          · rw [getPossibleMoves_of_immovable him] at hcm
            exact absurd hcm (List.not_mem_nil coord)
        split at h
        · exact Option.noConfusion h
        · next r st2 v2 hd =>
          have hst2 := hstep _ rfl _ st2 v2 hd
          split at h
          · cases h
            exact hst2
          · cases h
            rw [matchedOf_assign_ne _ _ _ i (fun hIk => hki hIk.symm)]
            exact hst2
        · next st2 v2 hd =>
          have hst2 := hstep _ rfl _ st2 v2 hd
          cases h
          rw [matchedOf_assign_ne _ _ _ i (fun hIk => hki hIk.symm)]
          exact hst2

theorem initFoldList_length (env : Env) : ∀ (l : List Nat) (st : St),
    (l.foldl (fun st i => assignCreepToCoordinate i (creepAt env i).pos st) st).matched.length =
      st.matched.length := by
  intro l
  induction l with
  | nil => intro st; rfl
  | cons a rest ih =>
    intro st
    rw [List.foldl_cons, ih, matched_length_assign]

theorem initFold_matched (env : Env) :
    ∀ k, k ≤ env.roster.length → ∀ i, matchedOf (initFold env k) i =
      if i < k then some (packCoordinates (creepAt env i).pos) else none := by
  intro k
  induction k with
  | zero =>
    intro _ i
    rw [if_neg (by omega)]
    show (List.replicate env.roster.length (none : Option Int)).getD i none = none
    by_cases hi : i < env.roster.length
    · rw [List.getD_eq_getElem?_getD, List.getElem?_replicate, if_pos hi]
      rfl
    · rw [List.getD_eq_default _ _ (by simpa using hi)]
  | succ k ih =>
    intro hk i
    have hstep : initFold env (k + 1) =
        assignCreepToCoordinate k (creepAt env k).pos (initFold env k) := by
      unfold initFold
      rw [List.range_succ, List.foldl_append]
      rfl
    have hlenk : (initFold env k).matched.length = env.roster.length := by
      unfold initFold
      rw [initFoldList_length]
      simp
    rw [hstep]
    by_cases hi : i = k
    · subst hi
      rw [matchedOf_assign_self i _ _ (by omega), if_pos (by omega)]
    · rw [matchedOf_assign_ne _ _ _ i hi, ih (by omega) i]
      by_cases hik : i < k
      · rw [if_pos hik, if_pos (by omega)]
      · rw [if_neg hik, if_neg (by omega)]

theorem runLoop_immovable (env : Env) (i : Nat)
    (him : canMove (creepAt env i) = false) :
    ∀ l st st', runLoop env l st = some st' →
      matchedOf st i = some (packCoordinates (creepAt env i).pos) →
      matchedOf st' i = some (packCoordinates (creepAt env i).pos) := by
  intro l
  induction l with
  | nil =>
    intro st st' h hm
    cases h
    exact hm
  | cons k rest ih =>
    intro st st' h hm
    simp only [runLoop] at h
    split at h
    · exact Option.noConfusion h
    · next st1 hs1 =>
      exact ih st1 st' h (runStep_immovable env i k st st1 him hs1 hm)

/-- C10: an agent that lacks movement capability this step (a creep that is
not a power creep, with positive fatigue or no MOVE body part) ends every
completed run matched to its own current cell, and no move command is issued
for it — its candidate list is empty, so no search branch can ever assign it
a different cell. -/
theorem C10_immovable (env : Env) (i : Nat) (st : St)
    (hi : i < env.roster.length)
    (hnp : (creepAt env i).isPowerCreep = false)
    (hcap : 0 < (creepAt env i).fatigue ∨ ∀ part ∈ (creepAt env i).body, part ≠ MOVE)
    (hx0 : 0 ≤ (creepAt env i).pos.x) (hx1 : (creepAt env i).pos.x < 50)
    (hy0 : 0 ≤ (creepAt env i).pos.y)
    (hrun : run env = some st) :
    matchedOf st i = some (packCoordinates (creepAt env i).pos) ∧
    resolveMovement env st i = false := by
  have him : canMove (creepAt env i) = false := canMove_eq_false hnp hcap
  have hinit : matchedOf (initState env) i = some (packCoordinates (creepAt env i).pos) := by
    rw [initState_eq_initFold, initFold_matched env env.roster.length (le_refl _) i,
      if_pos hi]
  have hm := runLoop_immovable env i him (List.range env.roster.length) (initState env) st
    hrun hinit
  refine ⟨hm, ?_⟩
  unfold resolveMovement
  rw [hm]
  show (!((creepAt env i).pos == unpackCoordinates ((some (packCoordinates (creepAt env i).pos)).getD 0))) = false
  have : unpackCoordinates (packCoordinates (creepAt env i).pos) = (creepAt env i).pos := by
    have := unpack_pack (creepAt env i).pos.x (creepAt env i).pos.y hx0 hx1 hy0
    simpa using this
  simp [this]

/-- A fatless creep without MOVE parts at `(6, 5)`. -/
def creepBlock : Creep := ⟨0, ⟨6, 5⟩, true, false, 0, ["work"], none, none, 0, directionDeltas⟩

/-- A two-creep room: a movable creep intends the immovable creep's cell. -/
def envC10 : Env :=
  ⟨[⟨1, ⟨5, 5⟩, true, false, 0, [MOVE], some (packCoordinates ⟨6, 5⟩), none, 0, directionDeltas⟩,
    creepBlock],
    fun _ _ => 0, none, 255⟩

/-- Witness for C10: the immovable creep (index 1) keeps its cell `(6, 5)`
and gets no move command although another creep intends its cell. -/
theorem C10_immovable_witness :
    (creepAt envC10 1).isPowerCreep = false ∧
    (∀ part ∈ (creepAt envC10 1).body, part ≠ MOVE) ∧
    run envC10 = some ⟨[(255, 0), (256, 1)], [some 255, some 256]⟩ ∧
    (matchedOf ⟨[(255, 0), (256, 1)], [some 255, some 256]⟩ 1 =
        some (packCoordinates (creepAt envC10 1).pos) ∧
      resolveMovement envC10 ⟨[(255, 0), (256, 1)], [some 255, some 256]⟩ 1 = false) :=
  ⟨rfl, by decide, by decide,
    C10_immovable envC10 1 _ (by decide) rfl (Or.inr (by decide))
      (by decide) (by decide) (by decide) (by decide)⟩

/-! ### C8: failure atomicity and the stationary fallback -/

/-- C8 (amended): a failed (non-positive or `-Infinity`) top-level search in
`run` leaves the search state exactly as it found it — commits happen only on
branches that propagate a positive score — and the failed agent is
re-assigned to its own current cell at the end of its own loop iteration.
(Its matched cell can still change later in the same run, when a subsequent
agent's augmenting search passes through its registered intent.) -/
theorem C8_failure_atomicity (env : Env) (k : Nat) (st : St) (ip : Int)
    (hit : intendedTruthy (creepAt env k) = some ip)
    (hne : matchedOf st k ≠ some ip)
    (hm : matchedOf st k = some (packCoordinates (creepAt env k).pos)) :
    (∀ res st2 v2,
      dfs env (env.roster.length + 1) k 0
        ⟨mmDel st.mm (packCoordinates (creepAt env k).pos), st.matched.set k none⟩ [] =
          some (res, st2, v2) →
      (∀ r, res = some r → r ≤ 0) →
      st2 = ⟨mmDel st.mm (packCoordinates (creepAt env k).pos), st.matched.set k none⟩ ∧
      runStep env k st = some (assignCreepToCoordinate k (creepAt env k).pos st2) ∧
      matchedOf (assignCreepToCoordinate k (creepAt env k).pos st2) k =
        some (packCoordinates (creepAt env k).pos)) ∧
    (∀ fuel i score stA v res stB v', dfs env fuel i score stA v = some (res, stB, v') →
      (∀ r, res = some r → r ≤ 0) → stB = stA) := by
  have hkl : k < st.matched.length := matchedOf_lt_length hm
  constructor
  · intro res st2 v2 hd hnp
    have haux := dfs_aux env _ k 0 _ [] res st2 v2 hd
    have hst2 := haux.2.2 hnp
    refine ⟨hst2, ?_, ?_⟩
    · simp only [runStep, hit]
      rw [if_neg (by simp [hne])]
      simp only [hm]
      rw [hd]
      cases res with
      | none => rfl
      | some r =>
        dsimp only
        rw [if_neg (by have := hnp r rfl; omega)]
    · rw [matchedOf_assign_self k _ _ ?_]
      rw [hst2]
      simpa using hkl
  · intro fuel i score stA v res stB v' hd hnp
    exact (dfs_aux env fuel i score stA v res stB v' hd).2.2 hnp

/-- The walls of the C8 counterexample room: all neighbours of `(10, 10)`
other than `(9, 10)` and `(11, 10)`, and all neighbours of `(11, 10)` other
than `(10, 10)` and `(12, 10)`. -/
def c8walls : List (Int × Int) :=
  [(9, 9), (10, 9), (11, 9), (12, 9), (9, 11), (10, 11), (11, 11), (12, 11)]

/-- The C8 counterexample roster: agent A (index 0) at `(20, 20)` intends
`(10, 10)` (packed 510); Z (index 1) sits at its own intent `(9, 10)`;
W (index 2) occupies `(10, 10)` with no intent, its shuffled order trying
LEFT before RIGHT; Y (index 3) occupies `(11, 10)` with no intent; B (index
4) at `(22, 20)` intends A's cell (packed 1020). -/
def envC8 : Env :=
  ⟨[⟨0, ⟨20, 20⟩, true, false, 0, [MOVE], some 510, none, 0, directionDeltas⟩,
    ⟨1, ⟨9, 10⟩, true, false, 0, [MOVE], some 509, none, 0, directionDeltas⟩,
    ⟨2, ⟨10, 10⟩, true, false, 0, [MOVE], none, none, 0, directionDeltas.reverse⟩,
    ⟨3, ⟨11, 10⟩, true, false, 0, [MOVE], none, none, 0, directionDeltas⟩,
    ⟨4, ⟨22, 20⟩, true, false, 0, [MOVE], some 1020, none, 0, directionDeltas⟩],
    fun x y => if (x, y) ∈ c8walls then 1 else 0, none, 255⟩

/-- The state of the C8 run at agent A's search (A's own entry removed). -/
def stC8A : St :=
  ⟨mmDel (initState envC8).mm 1020, (initState envC8).matched.set 0 none⟩

/-- C8 counterexample: agent A's top-level search returns `-Infinity` (a
non-positive result, so A is re-assigned to its own cell 1020), yet after
the full run A's matched cell is its intent 510, not its original cell —
agent B's later search displaced A through A's still-registered intent.
So "matched cell after the run equals its original current cell" is false
as stated. -/
theorem C8_counterexample :
    (dfs envC8 (envC8.roster.length + 1) 0 0 stC8A []).map (fun r => r.1) = some none ∧
    run envC8 = some ⟨[(1020, 4), (510, 0), (511, 2), (512, 3), (509, 1)],
      [some 510, some 509, some 511, some 512, some 1020]⟩ ∧
    matchedOf ⟨[(1020, 4), (510, 0), (511, 2), (512, 3), (509, 1)],
      [some 510, some 509, some 511, some 512, some 1020]⟩ 0 = some 510 ∧
    packCoordinates (creepAt envC8 0).pos = 1020 ∧ (510 : Int) ≠ 1020 :=
  ⟨by decide, by decide, by decide, by decide, by decide⟩

/-- Witness for C8 (amended), at agent A's failing iteration of the C8
counterexample run: the failed search leaves the state unchanged and A is
re-assigned to its own cell. -/
theorem C8_failure_atomicity_witness :
    intendedTruthy (creepAt envC8 0) = some 510 ∧
    matchedOf (initState envC8) 0 ≠ some 510 ∧
    matchedOf (initState envC8) 0 = some (packCoordinates (creepAt envC8 0).pos) ∧
    dfs envC8 (envC8.roster.length + 1) 0 0 stC8A [] =
      some (none, stC8A, [3, 1, 2, 0]) ∧
    (stC8A = stC8A ∧
      runStep envC8 0 (initState envC8) =
        some (assignCreepToCoordinate 0 (creepAt envC8 0).pos stC8A) ∧
      matchedOf (assignCreepToCoordinate 0 (creepAt envC8 0).pos stC8A) 0 =
        some (packCoordinates (creepAt envC8 0).pos)) :=
  ⟨by decide, by decide, by decide, by decide,
    (C8_failure_atomicity envC8 0 (initState envC8) 510 (by decide) (by decide)
      (by decide)).1 none stC8A [3, 1, 2, 0] (by decide)
      (fun r hr => Option.noConfusion hr)⟩

/-! ### Evaluation helpers for concrete-roster traces -/

theorem getPossibleMoves_intent (env : Env) (c : Creep) (ip : Int)
    (hcan : canMove c = true) (hit : intendedTruthy c = some ip) :
    getPossibleMoves env c = [unpackCoordinates ip] := by
  unfold getPossibleMoves
  rw [hcan, hit]
  rfl

theorem dfs_frame (env : Env) (fuel i : Nat) (score : Int) (st : St) (v : List Nat)
    (hmy : (creepAt env i).my = true) :
    dfs env (fuel + 1) i score st v =
      dfsLoop env (dfs env fuel) i
        ((getPossibleMoves env (creepAt env i)).filter
            (fun coord => (mmGet st.mm (packCoordinates coord)).isNone) ++
          (getPossibleMoves env (creepAt env i)).filter
            (fun coord => (mmGet st.mm (packCoordinates coord)).isSome))
        score st ((creepAt env i).name :: v) := by
  simp only [dfs, hmy, Bool.not_true, Bool.false_eq_true, if_false]

theorem dfsLoop_empty_commit (env : Env) (rec : Nat → Int → St → List Nat → DfsResult)
    (i : Nat) (coord : Coord) (rest : List Coord) (score score1 : Int) (st : St)
    (v : List Nat)
    (hget : mmGet st.mm (packCoordinates coord) = none)
    (hsc : score1 = if (creepAt env i).intended == some (packCoordinates coord)
      then score + 1 else score)
    (hpos : 0 < score1) :
    dfsLoop env rec i (coord :: rest) score st v =
      some (some score1, assignCreepToCoordinate i coord st, v) := by
  simp only [dfsLoop, hget, ← hsc]
  rw [if_pos hpos]

theorem dfsLoop_occupied_recurse (env : Env) (rec : Nat → Int → St → List Nat → DfsResult)
    (i : Nat) (coord : Coord) (rest : List Coord) (score score1 score2 : Int) (st : St)
    (v : List Nat) (j : Nat)
    (hget : mmGet st.mm (packCoordinates coord) = some j)
    (hnv : v.contains (creepAt env j).name = false)
    (hsc1 : score1 = if (creepAt env i).intended == some (packCoordinates coord)
      then score + 1 else score)
    (hsc2 : score2 = if (creepAt env j).intended == some (packCoordinates coord)
      then score1 - 1 else score1)
    (res : Int) (st' : St) (v' : List Nat)
    (hrec : rec j score2 st v = some (some res, st', v')) (hpos : 0 < res) :
    dfsLoop env rec i (coord :: rest) score st v =
      some (some res, assignCreepToCoordinate i coord st', v') := by
  simp only [dfsLoop, hget, hnv, Bool.false_eq_true, if_false, ← hsc1, ← hsc2, hrec]
  rw [if_pos hpos]

/-! ### C2: the swap scenario -/

/-- C2 (amended): two movable owned agents on adjacent grid cells with
mutual intents swap matched cells in a single run, provided neither cell is
the corner `(0, 0)` (whose packed key 0 is treated as an absent intent by
the falsy check `if (!intendedPackedCoord)`). -/
theorem C2_swap (env : Env) (A B : Creep)
    (hroster : env.roster = [A, B])
    (hname : A.name ≠ B.name)
    (hAmy : A.my = true) (hBmy : B.my = true)
    (hAcan : canMove A = true) (hBcan : canMove B = true)
    (hAint : A.intended = some (packCoordinates B.pos))
    (hBint : B.intended = some (packCoordinates A.pos))
    (hAx0 : 0 ≤ A.pos.x) (hAx1 : A.pos.x < 50) (hAy0 : 0 ≤ A.pos.y) (hAy1 : A.pos.y < 50)
    (hBx0 : 0 ≤ B.pos.x) (hBx1 : B.pos.x < 50) (hBy0 : 0 ≤ B.pos.y) (hBy1 : B.pos.y < 50)
    (hadj : rangeTo A.pos B.pos.x B.pos.y = 1)
    (hA0 : packCoordinates A.pos ≠ 0) (hB0 : packCoordinates B.pos ≠ 0) :
    ∃ st, run env = some st ∧
      matchedOf st 0 = some (packCoordinates B.pos) ∧
      matchedOf st 1 = some (packCoordinates A.pos) := by
  have hlen : env.roster.length = 2 := by rw [hroster]; rfl
  have hc0 : creepAt env 0 = A := by rw [creepAt, hroster]; rfl
  have hc1 : creepAt env 1 = B := by rw [creepAt, hroster]; rfl
  have hpA0 : 0 ≤ packCoordinates A.pos := by unfold packCoordinates; nlinarith
  have hpB0 : 0 ≤ packCoordinates B.pos := by unfold packCoordinates; nlinarith
  have hposne : A.pos ≠ B.pos := by
    intro he
    rw [he] at hadj
    simp [rangeTo] at hadj
  have hpne : packCoordinates A.pos ≠ packCoordinates B.pos := by
    intro he
    exact hposne (pack_inj A.pos B.pos hAx0 hAx1 hBx0 hBx1 he)
  have hitA : intendedTruthy A = some (packCoordinates B.pos) := by
    unfold intendedTruthy
    rw [hAint]
    simp [hB0]
  have hitB : intendedTruthy B = some (packCoordinates A.pos) := by
    unfold intendedTruthy
    rw [hBint]
    simp [hA0]
  have hupB : packCoordinates (unpackCoordinates (packCoordinates B.pos)) =
      packCoordinates B.pos := pack_unpack _ hpB0
  have hupA : packCoordinates (unpackCoordinates (packCoordinates A.pos)) =
      packCoordinates A.pos := pack_unpack _ hpA0
  have hposd : ∀ i j, i < env.roster.length → j < env.roster.length →
      packCoordinates (creepAt env i).pos = packCoordinates (creepAt env j).pos → i = j := by
    intro i j hi hj hp
    rw [hlen] at hi hj
    interval_cases i <;> interval_cases j <;>
      first
        | rfl
        | (exfalso
           rw [hc0, hc1] at hp
           first
             | exact hpne hp
             | exact hpne hp.symm)
  obtain ⟨hinl, hinm, hinmm⟩ := initFold_spec env hposd env.roster.length (le_refl _)
  rw [← initState_eq_initFold] at hinl hinm hinmm
  have hm00 : matchedOf (initState env) 0 = some (packCoordinates A.pos) := by
    rw [hinm 0, if_pos (by omega), hc0]
  have hg1 : mmGet (initState env).mm (packCoordinates B.pos) = some 1 := by
    rw [hinmm]
    exact ⟨by omega, by rw [hc1]⟩
  set st1 : St := ⟨mmDel (initState env).mm (packCoordinates A.pos),
    (initState env).matched.set 0 none⟩ with hst1def
  have hlen1 : st1.matched.length = 2 := by
    rw [hst1def]
    show ((initState env).matched.set 0 none).length = 2
    rw [List.length_set, hinl, hlen]
  have hg1A : mmGet st1.mm (packCoordinates A.pos) = none := by
    show mmGet (mmDel (initState env).mm (packCoordinates A.pos))
      (packCoordinates A.pos) = none
    rw [mmGet_del, if_pos rfl]
  have hg1B : mmGet st1.mm (packCoordinates B.pos) = some 1 := by
    show mmGet (mmDel (initState env).mm (packCoordinates A.pos))
      (packCoordinates B.pos) = some 1
    rw [mmGet_del, if_neg (fun h => hpne h.symm), hg1]
  have hdfsB : dfs env (1 + 1) 1 1 st1 [A.name] =
      some (some 2,
        assignCreepToCoordinate 1 (unpackCoordinates (packCoordinates A.pos)) st1,
        [B.name, A.name]) := by
    rw [dfs_frame env 1 1 1 st1 [A.name] (by rw [hc1]; exact hBmy)]
    rw [hc1, getPossibleMoves_intent env B _ hBcan hitB]
    have hfe : (([unpackCoordinates (packCoordinates A.pos)] : List Coord).filter
        (fun coord => (mmGet st1.mm (packCoordinates coord)).isNone)) =
        [unpackCoordinates (packCoordinates A.pos)] := by
      simp [hupA, hg1A]
    have hfo : (([unpackCoordinates (packCoordinates A.pos)] : List Coord).filter
        (fun coord => (mmGet st1.mm (packCoordinates coord)).isSome)) = [] := by
      simp [hupA, hg1A]
    rw [hfe, hfo, List.append_nil]
    rw [dfsLoop_empty_commit env (dfs env 1) 1 (unpackCoordinates (packCoordinates A.pos))
      [] 1 2 st1 [B.name, A.name] (by rw [hupA]; exact hg1A)
      (by rw [hupA, hc1, hBint]; simp)
      (by norm_num)]
  have hdfsA : dfs env (env.roster.length + 1) 0 0 st1 [] =
      some (some 2,
        assignCreepToCoordinate 0 (unpackCoordinates (packCoordinates B.pos))
          (assignCreepToCoordinate 1 (unpackCoordinates (packCoordinates A.pos)) st1),
        [B.name, A.name]) := by
    rw [dfs_frame env env.roster.length 0 0 st1 [] (by rw [hc0]; exact hAmy)]
    rw [hc0, getPossibleMoves_intent env A _ hAcan hitA]
    have hfe : (([unpackCoordinates (packCoordinates B.pos)] : List Coord).filter
        (fun coord => (mmGet st1.mm (packCoordinates coord)).isNone)) = [] := by
      simp [hupB, hg1B]
    have hfo : (([unpackCoordinates (packCoordinates B.pos)] : List Coord).filter
        (fun coord => (mmGet st1.mm (packCoordinates coord)).isSome)) =
        [unpackCoordinates (packCoordinates B.pos)] := by
      simp [hupB, hg1B]
    rw [hfe, hfo, List.nil_append]
    rw [(show env.roster.length = 1 + 1 by omega)]
    rw [dfsLoop_occupied_recurse env (dfs env (1 + 1)) 0
      (unpackCoordinates (packCoordinates B.pos)) [] 0 1 1 st1 [A.name] 1
      (by rw [hupB]; exact hg1B)
      (by rw [hc1]; simp [List.contains_cons]; omega)
      (by rw [hupB, hc0, hAint]; simp)
      (by rw [hupB, hc1, hBint]; simp [hpne])
      2 _ _ hdfsB (by norm_num)]
  have hm1F : matchedOf (assignCreepToCoordinate 0 (unpackCoordinates (packCoordinates B.pos))
      (assignCreepToCoordinate 1 (unpackCoordinates (packCoordinates A.pos)) st1)) 1 =
      some (packCoordinates A.pos) := by
    rw [matchedOf_assign_ne 0 _ _ 1 (by omega)]
    rw [matchedOf_assign_self 1 _ _ (by rw [hlen1]; omega), hupA]
  have hrs0 : runStep env 0 (initState env) =
      some (assignCreepToCoordinate 0 (unpackCoordinates (packCoordinates B.pos))
        (assignCreepToCoordinate 1 (unpackCoordinates (packCoordinates A.pos)) st1)) := by
    simp only [runStep, hc0, hitA]
    rw [if_neg (by rw [hm00]; simp [hpne])]
    simp only [hm00]
    rw [← hst1def, hdfsA]
    dsimp only
    rw [if_pos (by norm_num)]
  have hrs1 : runStep env 1
      (assignCreepToCoordinate 0 (unpackCoordinates (packCoordinates B.pos))
        (assignCreepToCoordinate 1 (unpackCoordinates (packCoordinates A.pos)) st1)) =
      some (assignCreepToCoordinate 0 (unpackCoordinates (packCoordinates B.pos))
        (assignCreepToCoordinate 1 (unpackCoordinates (packCoordinates A.pos)) st1)) := by
    simp only [runStep, hc1, hitB]
    rw [if_pos (by rw [hm1F]; simp)]
  refine ⟨_, ?_, ?_, hm1F⟩
  · show runLoop env (List.range env.roster.length) (initState env) = _
    rw [hlen, (show List.range 2 = [0, 1] from rfl)]
    simp only [runLoop, hrs0, hrs1]
  · rw [matchedOf_assign_self 0 _ _ ?_, hupB]
    rw [matched_length_assign, hlen1]
    omega

/-- The C2 counterexample roster: two movable owned creeps on the adjacent
cells `(0, 0)` and `(0, 1)` with mutual registered intents. -/
def envC2x : Env :=
  ⟨[⟨0, ⟨0, 0⟩, true, false, 0, [MOVE], some (packCoordinates ⟨0, 1⟩), none, 0, directionDeltas⟩,
    ⟨1, ⟨0, 1⟩, true, false, 0, [MOVE], some (packCoordinates ⟨0, 0⟩), none, 0, directionDeltas⟩],
    fun _ _ => 0, none, 255⟩

/-- C2 counterexample: with A at the corner `(0, 0)` and B at `(0, 1)`
intending each other's cells, a run ends with B matched to `(1, 1)` (packed
51), not to A's cell `(0, 0)` (packed 0) — B's intent packs to the falsy key
0 and is ignored, so the swap does not happen although all of the claim's
premises hold. -/
theorem C2_swap_counterexample :
    (creepAt envC2x 0).my = true ∧ (creepAt envC2x 1).my = true ∧
    canMove (creepAt envC2x 0) = true ∧ canMove (creepAt envC2x 1) = true ∧
    (creepAt envC2x 0).intended = some (packCoordinates (creepAt envC2x 1).pos) ∧
    (creepAt envC2x 1).intended = some (packCoordinates (creepAt envC2x 0).pos) ∧
    rangeTo (creepAt envC2x 0).pos (creepAt envC2x 1).pos.x (creepAt envC2x 1).pos.y = 1 ∧
    run envC2x = some ⟨[(50, 0), (51, 1)], [some 50, some 51]⟩ ∧
    matchedOf ⟨[(50, 0), (51, 1)], [some 50, some 51]⟩ 1 = some 51 ∧
    (51 : Int) ≠ packCoordinates (creepAt envC2x 0).pos :=
  ⟨rfl, rfl, by decide, by decide, by decide, by decide, by decide, by decide,
    by decide, by decide⟩

/-- The C2 witness roster: the swap of `envW2` away from the corner. -/
theorem C2_swap_witness :
    ∃ st, run envW2 = some st ∧
      matchedOf st 0 = some (packCoordinates (creepAt envW2 1).pos) ∧
      matchedOf st 1 = some (packCoordinates (creepAt envW2 0).pos) :=
  C2_swap envW2 (creepAt envW2 0) (creepAt envW2 1) rfl (by decide) rfl rfl
    (by decide) (by decide) rfl rfl
    (by decide) (by decide) (by decide) (by decide)
    (by decide) (by decide) (by decide) (by decide)
    (by decide) (by decide) (by decide)

/-! ### C4: conflict-free idempotence -/

/-- The cell each creep should be matched to after the first `k` iterations
of a conflict-free run: processed creeps with a (truthy) intent sit on their
intent, everyone else on their own cell. -/
def C4Target (env : Env) (k j : Nat) : Int :=
  if j < k then
    match intendedTruthy (creepAt env j) with
    | some ip => ip
    | none => packCoordinates (creepAt env j).pos
  else packCoordinates (creepAt env j).pos

theorem C4_step (env : Env)
    (hmy : ∀ i, i < env.roster.length → (creepAt env i).my = true)
    (hnn : ∀ i, i < env.roster.length → ∀ p, (creepAt env i).intended = some p → 0 ≤ p)
    (hmove : ∀ i, i < env.roster.length → ∀ ip, intendedTruthy (creepAt env i) = some ip →
      canMove (creepAt env i) = true)
    (hdist : ∀ i j, i < env.roster.length → j < env.roster.length → ∀ ip,
      intendedTruthy (creepAt env i) = some ip → intendedTruthy (creepAt env j) = some ip →
      i = j)
    (hunocc : ∀ i j, i < env.roster.length → j < env.roster.length → ∀ ip,
      intendedTruthy (creepAt env i) = some ip →
      ip ≠ packCoordinates (creepAt env j).pos)
    (k : Nat) (hk : k < env.roster.length) (st : St)
    (hInv : MapInv env st)
    (hdesc : ∀ j, j < env.roster.length → matchedOf st j = some (C4Target env k j)) :
    ∃ st', runStep env k st = some st' ∧ MapInv env st' ∧
      ∀ j, j < env.roster.length → matchedOf st' j = some (C4Target env (k + 1) j) := by
  have htarget_frozen : ∀ j, j ≠ k → C4Target env (k + 1) j = C4Target env k j := by
    intro j hj
    unfold C4Target
    by_cases hlt : j < k
    · rw [if_pos hlt, if_pos (by omega)]
    · rw [if_neg hlt, if_neg (by omega)]
  simp only [runStep]
  cases hit : intendedTruthy (creepAt env k) with
  | none =>
    refine ⟨st, rfl, hInv, ?_⟩
    intro j hj
    by_cases hjk : j = k
    · subst hjk
      rw [hdesc j hj]
      unfold C4Target
      rw [if_neg (by omega), if_pos (by omega), hit]
    · rw [htarget_frozen j hjk]
      exact hdesc j hj
  | some ip =>
    dsimp only
    have hmk : matchedOf st k = some (packCoordinates (creepAt env k).pos) := by
      rw [hdesc k hk]
      unfold C4Target
      rw [if_neg (by omega)]
    have hipk : ip ≠ packCoordinates (creepAt env k).pos := hunocc k k hk hk ip hit
    rw [if_neg (by rw [hmk]; simp; omega)]
    rw [hmk]
    dsimp only
    set st1 : St := ⟨mmDel st.mm (packCoordinates (creepAt env k).pos),
      st.matched.set k none⟩ with hst1def
    have hkl : k < st.matched.length := matchedOf_lt_length hmk
    have hInv1 : MapInv env st1 := mapInv_delete env st k _ hInv hmk
    have hip0 : 0 ≤ ip := hnn k hk ip (intendedTruthy_eq_some hit).1
    have hup : packCoordinates (unpackCoordinates ip) = ip := pack_unpack ip hip0
    have hlen1 : st1.matched.length = st.matched.length := by
      rw [hst1def]
      show (st.matched.set k none).length = st.matched.length
      rw [List.length_set]
    have hgip : mmGet st.mm ip = none := by
      cases hq : mmGet st.mm ip with
      | none => rfl
      | some q =>
        exfalso
        obtain ⟨hqn, hqm⟩ := hInv.2.2 ip q hq
        rw [hdesc q hqn] at hqm
        cases hqm
        revert hit
        unfold C4Target
        split
        · split
          · next q' ipq hitq =>
            intro hit
            have := hdist k q hk hqn _ hit hitq
            omega
          · next q' hitq =>
            intro hit
            exact hunocc k q hk hqn _ hit rfl
        · intro hit
          exact hunocc k q hk hqn _ hit rfl
    have hg1ip : mmGet st1.mm ip = none := by
      show mmGet (mmDel st.mm (packCoordinates (creepAt env k).pos)) ip = none
      rw [mmGet_del]
      split
      · rfl
      · exact hgip
    have hm1k : matchedOf st1 k = none := matchedOf_set_self st _ k none hkl
    have hdfs : dfs env (env.roster.length + 1) k 0 st1 [] =
        some (some 1, assignCreepToCoordinate k (unpackCoordinates ip) st1,
          [(creepAt env k).name]) := by
      rw [dfs_frame env env.roster.length k 0 st1 [] (hmy k hk)]
      rw [getPossibleMoves_intent env _ ip (hmove k hk ip hit) hit]
      have hfe : (([unpackCoordinates ip] : List Coord).filter
          (fun coord => (mmGet st1.mm (packCoordinates coord)).isNone)) =
          [unpackCoordinates ip] := by
        simp [hup, hg1ip]
      have hfo : (([unpackCoordinates ip] : List Coord).filter
          (fun coord => (mmGet st1.mm (packCoordinates coord)).isSome)) = [] := by
        simp [hup, hg1ip]
      rw [hfe, hfo, List.append_nil]
      rw [dfsLoop_empty_commit env (dfs env env.roster.length) k (unpackCoordinates ip)
        [] 0 1 st1 [(creepAt env k).name] (by rw [hup]; exact hg1ip)
        (by rw [hup, (intendedTruthy_eq_some hit).1]; simp)
        (by norm_num)]
    rw [hdfs]
    dsimp only
    rw [if_pos (by norm_num)]
    refine ⟨_, rfl, ?_, ?_⟩
    · exact mapInv_assign_empty env st1 k _ hInv1 hk (by rw [hup]; exact hg1ip) hm1k
    · intro j hj
      by_cases hjk : j = k
      · subst hjk
        rw [matchedOf_assign_self j _ _ (by omega), hup]
        unfold C4Target
        rw [if_pos (by omega), hit]
      · rw [matchedOf_assign_ne _ _ _ j hjk, htarget_frozen j hjk]
        have : matchedOf st1 j = matchedOf st j :=
          matchedOf_set_ne st _ k j none hjk
        rw [this]
        exact hdesc j hj

theorem C4_loop (env : Env)
    (hmy : ∀ i, i < env.roster.length → (creepAt env i).my = true)
    (hnn : ∀ i, i < env.roster.length → ∀ p, (creepAt env i).intended = some p → 0 ≤ p)
    (hmove : ∀ i, i < env.roster.length → ∀ ip, intendedTruthy (creepAt env i) = some ip →
      canMove (creepAt env i) = true)
    (hdist : ∀ i j, i < env.roster.length → j < env.roster.length → ∀ ip,
      intendedTruthy (creepAt env i) = some ip → intendedTruthy (creepAt env j) = some ip →
      i = j)
    (hunocc : ∀ i j, i < env.roster.length → j < env.roster.length → ∀ ip,
      intendedTruthy (creepAt env i) = some ip →
      ip ≠ packCoordinates (creepAt env j).pos) :
    ∀ m k st, k + m = env.roster.length → MapInv env st →
      (∀ j, j < env.roster.length → matchedOf st j = some (C4Target env k j)) →
      ∃ st', runLoop env (List.range' k m) st = some st' ∧
        ∀ j, j < env.roster.length →
          matchedOf st' j = some (C4Target env env.roster.length j) := by
  intro m
  induction m with
  | zero =>
    intro k st hkm hInv hdesc
    refine ⟨st, rfl, ?_⟩
    have : k = env.roster.length := by omega
    subst this
    exact hdesc
  | succ m ih =>
    intro k st hkm hInv hdesc
    rw [List.range'_succ]
    obtain ⟨st1, hs1, hInv1, hdesc1⟩ :=
      C4_step env hmy hnn hmove hdist hunocc k (by omega) st hInv hdesc
    obtain ⟨st', hs', hdesc'⟩ := ih (k + 1) st1 (by omega) hInv1 hdesc1
    refine ⟨st', ?_, hdesc'⟩
    simp only [runLoop, hs1]
    exact hs'

/-- C4 (amended): if every agent with a registered intent is movable this
step, its intended cell has a nonzero packed key, and the intended cells are
pairwise distinct and unoccupied by any agent's starting cell, then after one
run every such agent's matched cell equals its intended cell.  (Roster
well-formedness — owned creeps on distinct cells with `registerMove`-produced
non-negative intents — is assumed.) -/
theorem C4_conflict_free (env : Env)
    (hmy : ∀ i, i < env.roster.length → (creepAt env i).my = true)
    (hpos : ∀ i j, i < env.roster.length → j < env.roster.length →
      packCoordinates (creepAt env i).pos = packCoordinates (creepAt env j).pos → i = j)
    (hnn : ∀ i, i < env.roster.length → ∀ p, (creepAt env i).intended = some p → 0 ≤ p)
    (hmove : ∀ i, i < env.roster.length → ∀ ip, intendedTruthy (creepAt env i) = some ip →
      canMove (creepAt env i) = true)
    (hdist : ∀ i j, i < env.roster.length → j < env.roster.length → ∀ ip,
      intendedTruthy (creepAt env i) = some ip → intendedTruthy (creepAt env j) = some ip →
      i = j)
    (hunocc : ∀ i j, i < env.roster.length → j < env.roster.length → ∀ ip,
      intendedTruthy (creepAt env i) = some ip →
      ip ≠ packCoordinates (creepAt env j).pos) :
    ∃ st, run env = some st ∧
      ∀ i, i < env.roster.length → ∀ ip, intendedTruthy (creepAt env i) = some ip →
        matchedOf st i = some ip := by
  obtain ⟨hinl, hinm, hinmm⟩ := initFold_spec env hpos env.roster.length (le_refl _)
  rw [← initState_eq_initFold] at hinl hinm hinmm
  have hInv0 : MapInv env (initState env) := by
    refine ⟨hinl, ?_, ?_⟩
    · intro i p hip
      rw [hinm i] at hip
      split at hip
      · next hi =>
        cases hip
        exact (hinmm _ i).mpr ⟨hi, rfl⟩
      · exact Option.noConfusion hip
    · intro p i hpi
      obtain ⟨hi, hpe⟩ := (hinmm p i).mp hpi
      refine ⟨hi, ?_⟩
      rw [hinm i, if_pos hi, hpe]
  have hdesc0 : ∀ j, j < env.roster.length →
      matchedOf (initState env) j = some (C4Target env 0 j) := by
    intro j hj
    rw [hinm j, if_pos hj]
    unfold C4Target
    rw [if_neg (by omega)]
  obtain ⟨st', hs', hdesc'⟩ := C4_loop env hmy hnn hmove hdist hunocc
    env.roster.length 0 (initState env) (by omega) hInv0 hdesc0
  refine ⟨st', ?_, ?_⟩
  · show runLoop env (List.range env.roster.length) (initState env) = some st'
    rw [List.range_eq_range']
    exact hs'
  · intro i hi ip hit
    rw [hdesc' i hi]
    unfold C4Target
    rw [if_pos hi, hit]

/-- A one-creep room whose creep registers the corner intent `(0, 0)`
(packed key 0): distinct from every other intent and unoccupied. -/
def envC4a : Env :=
  ⟨[⟨0, ⟨5, 5⟩, true, false, 0, [MOVE], some 0, none, 0, directionDeltas⟩],
    fun _ _ => 0, none, 255⟩

/-- A one-creep room whose fatigued creep registers the intent `(6, 5)`
(packed 256): distinct and unoccupied. -/
def envC4b : Env :=
  ⟨[⟨0, ⟨5, 5⟩, true, false, 3, [MOVE], some 256, none, 0, directionDeltas⟩],
    fun _ _ => 0, none, 255⟩

/-- C4 counterexample: two runs in which a single agent's registered intent
is distinct from all other intents and unoccupied by any starting cell, yet
the agent does not end on its intent: with the corner intent `(0, 0)`
(packed 0) the falsy check skips the agent entirely, and a fatigued agent is
skipped by the empty candidate list.  In both runs the matched cell stays
`(5, 5)` (packed 255). -/
theorem C4_conflict_free_counterexample :
    ((creepAt envC4a 0).intended = some 0 ∧
      run envC4a = some ⟨[(255, 0)], [some 255]⟩ ∧
      matchedOf ⟨[(255, 0)], [some 255]⟩ 0 ≠ some 0) ∧
    ((creepAt envC4b 0).intended = some 256 ∧
      run envC4b = some ⟨[(255, 0)], [some 255]⟩ ∧
      matchedOf ⟨[(255, 0)], [some 255]⟩ 0 ≠ some 256) :=
  ⟨⟨rfl, by decide, by decide⟩, ⟨rfl, by decide, by decide⟩⟩

/-- A one-creep room whose movable creep intends the free interior cell
`(6, 5)` (packed 256). -/
def envC4w : Env :=
  ⟨[⟨0, ⟨5, 5⟩, true, false, 0, [MOVE], some 256, none, 0, directionDeltas⟩],
    fun _ _ => 0, none, 255⟩

/-- Witness for C4 (amended) on the conflict-free one-creep roster. -/
theorem C4_conflict_free_witness :
    ∃ st, run envC4w = some st ∧
      ∀ i, i < envC4w.roster.length → ∀ ip, intendedTruthy (creepAt envC4w i) = some ip →
        matchedOf st i = some ip := by
  have h1 : envC4w.roster.length = 1 := rfl
  have hint : (creepAt envC4w 0).intended = some 256 := rfl
  have hintt : intendedTruthy (creepAt envC4w 0) = some 256 := rfl
  apply C4_conflict_free envC4w
  · intro i hi
    rw [h1] at hi
    interval_cases i
    rfl
  · intro i j hi hj _
    rw [h1] at hi hj
    omega
  · intro i hi p hp
    rw [h1] at hi
    interval_cases i
    rw [hint] at hp
    cases hp
    norm_num
  · intro i hi ip _
    rw [h1] at hi
    interval_cases i
    rfl
  · intro i j hi hj ip _ _
    rw [h1] at hi hj
    omega
  · intro i j hi hj ip hit
    rw [h1] at hi hj
    interval_cases i
    interval_cases j
    rw [hintt] at hit
    cases hit
    decide
